import Mathlib

/-!
# Catch the Shape: the game engine of `src/App.jsx`

A shallow embedding of the state held by the `CatchTheShape` component and of
the handlers that change it: `spawnShape`, the target rotation, `animateShapes`,
`createParticles` and `handleShapeTap`.

Modelling conventions.

* Every handler runs to completion on the committed state (the event loop is
  single threaded), so a handler is a function from the state before to the
  state after.
* JavaScript numbers that only ever hold integers here (`score`, `top`, `life`,
  ids, `window.innerWidth`, `window.innerHeight`) are `Int`/`Nat`.
* The other numbers are IEEE 754 doubles, held as the rationals they denote.
  `toDouble` rounds a rational to the nearest double (ties to even). A decimal
  of the level table stands for its double, `toDouble` of the decimal, wherever
  the code reads it, and every sum, product and quotient of doubles is rounded
  by `toDouble`, as the processor does. A result of `Math.random()` is a double
  in `[0, 1)`. `Math.cos` and `Math.sin` are not computed: their results are
  inputs.
* `Math.random()` and `Date.now()` are inputs of the handler that calls them.
* `levelSettings[currentLevel]` is a partial lookup: where JavaScript would
  read a field of `undefined` and throw, the handler returns `none`.
* Sound playback and timer handles do not feed back into the game state and
  are left out; the timer that clears the level-up banner is a transition of
  its own.
-/

namespace CatchTheShape

/-! ## Data model -/

/-- The five strings used as `type` of a shape. -/
inductive Kind
  | circle
  | square
  | triangle
  | bomb
  | golden
  deriving DecidableEq, Repr

/-- The constant `shapesList`. -/
def shapesList : List Kind := [Kind.circle, Kind.square, Kind.triangle]

/-- The constant `shapeColors`. -/
def shapeColors : Kind → String
  | Kind.circle => "#ff4d6d"
  | Kind.square => "#4dff9d"
  | Kind.triangle => "#4da6ff"
  | Kind.bomb => "#ff0000"
  | Kind.golden => "#ffd700"

/-- One row of `levelSettings`. -/
structure LevelConfig where
  level : Nat
  targetScore : Int
  speed : Int
  spawnInterval : Nat
  bombChance : ℚ
  goldenChance : ℚ
  deriving DecidableEq

/-- The constant `levelSettings`. -/
def levelSettings : List LevelConfig :=
  [ { level := 1, targetScore := 5, speed := 2, spawnInterval := 800,
      bombChance := 5 / 100, goldenChance := 5 / 100 },
    { level := 2, targetScore := 10, speed := 3, spawnInterval := 700,
      bombChance := 6 / 100, goldenChance := 5 / 100 },
    { level := 3, targetScore := 15, speed := 4, spawnInterval := 600,
      bombChance := 7 / 100, goldenChance := 5 / 100 },
    { level := 4, targetScore := 20, speed := 5, spawnInterval := 500,
      bombChance := 8 / 100, goldenChance := 6 / 100 },
    { level := 5, targetScore := 25, speed := 6, spawnInterval := 450,
      bombChance := 10 / 100, goldenChance := 6 / 100 },
    { level := 6, targetScore := 35, speed := 7, spawnInterval := 400,
      bombChance := 12 / 100, goldenChance := 7 / 100 },
    { level := 7, targetScore := 45, speed := 8, spawnInterval := 350,
      bombChance := 15 / 100, goldenChance := 8 / 100 },
    { level := 8, targetScore := 60, speed := 10, spawnInterval := 300,
      bombChance := 18 / 100, goldenChance := 8 / 100 } ]

/-- A falling shape: an element of the `shapes` array. -/
structure Shape where
  id : Int
  type : Kind
  left : ℚ
  top : Int
  deriving DecidableEq

/-- An element of the `particles` array. -/
structure Particle where
  id : Nat
  x : ℚ
  y : Int
  color : String
  dx : ℚ
  dy : ℚ
  life : Int
  deriving DecidableEq

/-- The React state of the component together with the `nextParticleId` ref. -/
structure GameState where
  shapes : List Shape
  score : Int
  targetShape : Kind
  currentLevel : Nat
  levelUp : Bool
  particles : List Particle
  soundEnabled : Bool
  nextParticleId : Nat
  deriving DecidableEq

/-- The values passed to `useState` and `useRef` on the first render. -/
def initialState : GameState :=
  { shapes := [], score := 0, targetShape := Kind.circle, currentLevel := 0,
    levelUp := false, particles := [], soundEnabled := false, nextParticleId := 0 }

/-- Round to the nearest integer, ties to the even one. -/
def roundEven (x : ℚ) : ℤ :=
  if x - ⌊x⌋ < 1 / 2 then ⌊x⌋
  else if 1 / 2 < x - ⌊x⌋ then ⌊x⌋ + 1
  else if ⌊x⌋ % 2 = 0 then ⌊x⌋
  else ⌊x⌋ + 1

/-- The binary exponent used for rounding `q` to a double: the exponent of the
binade of `q`, and the least normal exponent -1022 below it (subnormals). -/
def expOf (q : ℚ) : ℤ := max (Int.log 2 |q|) (-1022)

/-- The double nearest to `q`, ties to even: `q` is rounded to a multiple of
`2 ^ (expOf q - 52)`, the unit in the last place of a 53 bit significand.
Overflow to infinity (above `2 ^ 1024`) is not modelled. -/
def toDouble (q : ℚ) : ℚ :=
  roundEven (q / 2 ^ (expOf q - 52)) * 2 ^ (expOf q - 52)

/-- A result of `Math.random()`: a double in `[0, 1)`, that is `m / 2 ^ k` with a
significand `m` of at most 53 bits. -/
structure Draw where
  val : ℚ
  nonneg : 0 ≤ val
  lt_one : val < 1
  double : ∃ m k : ℕ, m < 2 ^ 53 ∧ k ≤ 1074 ∧ val = m / 2 ^ k

/-- The random outcomes consumed by one call of `createParticles`: for the
`i`-th particle the values of `Math.cos(angle)` and `Math.sin(angle)` and the
draw behind `distance`. -/
structure BurstDraws where
  cosA : Nat → ℚ
  sinA : Nat → ℚ
  dist : Nat → Draw

/-! ## Handlers -/

/-- The array expression `xs.slice(-n)`: the last `n` elements. -/
def sliceLast (n : Nat) (xs : List α) : List α :=
  xs.drop (xs.length - n)

/-- The expression `shapesList[Math.floor(Math.random() * shapesList.length)]`. -/
def randomPlain (r : Draw) : Option Kind :=
  shapesList[(Int.floor (toDouble (r.val * shapesList.length))).toNat]?

/-- The three-way choice of `type` in `spawnShape`: `rand` is the first call of
`Math.random()`, `pick` the one made in the last branch. -/
def spawnType (level : LevelConfig) (rand pick : Draw) : Option Kind :=
  if rand.val < toDouble level.goldenChance then some Kind.golden
  else if rand.val < toDouble (toDouble level.goldenChance + toDouble level.bombChance) then
    some Kind.bomb
  else randomPlain pick

/-- The handler `spawnShape`; `rand`, `pick` and `pos` are the three calls of
`Math.random()`, `now` is `Date.now()`. -/
def spawnShape (s : GameState) (rand pick pos : Draw) (now innerWidth : Int) :
    Option GameState :=
  match levelSettings[s.currentLevel]? with
  | none => none
  | some level =>
    match spawnType level rand pick with
    | none => none
    | some type =>
      let newShape : Shape :=
        { id := now, type := type, left := toDouble (pos.val * (innerWidth - 60)),
          top := -60 }
      some { s with shapes := sliceLast 30 (s.shapes ++ [newShape]) }

/-- The interval callback that changes the target shape. -/
def rotateTarget (s : GameState) (r : Draw) : Option GameState :=
  match randomPlain r with
  | none => none
  | some newTarget => some { s with targetShape := newTarget }

/-- The handler `animateShapes`; the level is looked up inside the callback of
`map`, once per shape. -/
def animateShapes (s : GameState) (innerHeight : Int) : Option GameState :=
  match s.shapes.mapM fun sh =>
      (levelSettings[s.currentLevel]?).map fun lvl => { sh with top := sh.top + lvl.speed } with
  | none => none
  | some moved =>
    some { s with
      shapes := moved.filter fun sh => sh.top < innerHeight
      particles :=
        (s.particles.map fun p => { p with life := p.life - 1 }).filter fun p => p.life > 0 }

/-- The function `createParticles`. -/
def createParticles (s : GameState) (x : ℚ) (y : Int) (color : String)
    (b : BurstDraws) : GameState :=
  let newParticles : List Particle := (List.range 5).map fun i =>
    let distance : ℚ := toDouble (toDouble ((b.dist i).val * 30) + 20)
    { id := s.nextParticleId + i, x := x, y := y, color := color,
      dx := toDouble (toDouble (b.cosA i * distance) / 10),
      dy := toDouble (toDouble (b.sinA i * distance) / 10), life := 10 }
  { s with
    particles := s.particles ++ newParticles
    nextParticleId := s.nextParticleId + 5 }

/-- The local variable `newScore` of `handleShapeTap` after the three-way
branch on `type`. -/
def newScore (s : GameState) (type : Kind) : Int :=
  if type = s.targetShape ∨ type = Kind.golden then
    s.score + (if type = Kind.golden then 5 else 1)
  else if type = Kind.bomb then
    max 0 (s.score - 5)
  else
    max 0 (s.score - 1)

/-- The handler `handleShapeTap`. -/
def handleShapeTap (s : GameState) (id : Int) (type : Kind) (left : ℚ) (top : Int)
    (b : BurstDraws) : Option GameState :=
  let scored : GameState :=
    { s with
      score := newScore s type
      shapes := s.shapes.filter fun sh => sh.id ≠ id }
  let burst := createParticles scored left top (shapeColors type) b
  match levelSettings[s.currentLevel]? with
  | none => none
  | some lvl =>
    if newScore s type ≥ lvl.targetScore then
      let nextLevel := s.currentLevel + 1
      if nextLevel < levelSettings.length then
        some { burst with currentLevel := nextLevel, levelUp := true }
      else
        some { burst with score := 0, currentLevel := 0, levelUp := true }
    else
      some burst

/-- The timeout callback `() => setLevelUp(false)`. -/
def clearLevelUp (s : GameState) : GameState :=
  { s with levelUp := false }

/-- The listener `enableSound`. -/
def enableSound (s : GameState) : GameState :=
  { s with soundEnabled := true }

/-- A tap on the element rendered for the shape `sh`. The render maps every
shape of the list to one `div` whose `onClick` and `onTouchStart` call
`handleShapeTap` with the fields of that shape, so the element and its handlers
exist only while `sh` is in the list; `handleShapeTap` itself does not look the
id up. A tap aimed at a shape that is not rendered finds no handler to run and
leaves the state as it is. -/
def tapOn (s : GameState) (sh : Shape) (b : BurstDraws) : Option GameState :=
  if sh ∈ s.shapes then handleShapeTap s sh.id sh.type sh.left sh.top b else some s

/-! ## Transition system -/

/-- One handler run. A tap comes from the `onClick` of a rendered shape, so its
arguments are the fields of a shape of the current list. -/
inductive Step : GameState → GameState → Prop
  | spawn {s s' : GameState} (rand pick pos : Draw) (now innerWidth : Int) :
      spawnShape s rand pick pos now innerWidth = some s' → Step s s'
  | rotate {s s' : GameState} (r : Draw) :
      rotateTarget s r = some s' → Step s s'
  | tick {s s' : GameState} (innerHeight : Int) :
      animateShapes s innerHeight = some s' → Step s s'
  | tap {s s' : GameState} (sh : Shape) (b : BurstDraws) :
      sh ∈ s.shapes → handleShapeTap s sh.id sh.type sh.left sh.top b = some s' → Step s s'
  | banner (s : GameState) : Step s (clearLevelUp s)
  | sound (s : GameState) : Step s (enableSound s)

/-- The states the game can be in. -/
inductive Reachable : GameState → Prop
  | init : Reachable initialState
  | step {s s' : GameState} : Reachable s → Step s s' → Reachable s'

/-- A draw with value zero. -/
def zeroDraw : Draw := ⟨0, le_refl 0, by norm_num, 0, 0, by norm_num, by norm_num, by norm_num⟩

/-- Burst outcomes with every particle sent straight to the right. -/
def flatBurst : BurstDraws := ⟨fun _ => 1, fun _ => 0, fun _ => zeroDraw⟩

/-! ## The invariant and some named states -/

/-- The level index is valid, the score lies in `[0, targetScore)` of the
current level, and the target is one of the three plain kinds. -/
def Inv (s : GameState) : Prop :=
  ∃ lvl, levelSettings[s.currentLevel]? = some lvl ∧
    0 ≤ s.score ∧ s.score < lvl.targetScore ∧ s.targetShape ∈ shapesList

/-- A state without shapes and particles, with sound still disabled. -/
def idle (score : Int) (target : Kind) (level : Nat) (up : Bool) (pid : Nat) : GameState :=
  { shapes := [], score := score, targetShape := target, currentLevel := level,
    levelUp := up, particles := [], soundEnabled := false, nextParticleId := pid }

/-- The idle state with one shape of kind `k` and id `now` just spawned at the
left edge. -/
def waiting (score : Int) (target : Kind) (level : Nat) (up : Bool) (pid : Nat)
    (now : Int) (k : Kind) : GameState :=
  { idle score target level up pid with shapes := [⟨now, k, 0, -60⟩] }

/-- A draw with value one half. -/
def halfDraw : Draw := ⟨1 / 2, by norm_num, by norm_num, 1, 1, by norm_num, by norm_num, by norm_num⟩

/-- Last level, score 55, one golden shape on screen. -/
def goldenAtLast : GameState :=
  { shapes := [⟨11, Kind.golden, 0, -60⟩], score := 55, targetShape := Kind.circle,
    currentLevel := 7, levelUp := true, particles := [], soundEnabled := false,
    nextParticleId := 55 }

/-- Last level, score 59, one circle on screen while the target is the circle. -/
def circleAtLast : GameState :=
  { shapes := [⟨15, Kind.circle, 0, -60⟩], score := 59, targetShape := Kind.circle,
    currentLevel := 7, levelUp := true, particles := [], soundEnabled := false,
    nextParticleId := 75 }

/-- The first level with score 0 and one circle, the target, on screen: the
initial state after one spawn. -/
def circleAtStart : GameState :=
  { shapes := [⟨1, Kind.circle, 0, -60⟩], score := 0, targetShape := Kind.circle,
    currentLevel := 0, levelUp := false, particles := [], soundEnabled := false,
    nextParticleId := 0 }

/-- First level, score 4, no shape on screen. -/
def oneBelowTarget : GameState :=
  { shapes := [], score := 4, targetShape := Kind.circle, currentLevel := 0,
    levelUp := false, particles := [], soundEnabled := false, nextParticleId := 0 }

/-- First level with a score far above the targets of all levels. -/
def farAbove : GameState :=
  { shapes := [], score := 100, targetShape := Kind.circle, currentLevel := 0,
    levelUp := false, particles := [], soundEnabled := false, nextParticleId := 0 }

/-- First level with two shapes on screen: a circle near the bottom of a
viewport of height 700 and a bomb just spawned. -/
def twoShapes : GameState :=
  { shapes := [⟨1, Kind.circle, 0, 699⟩, ⟨2, Kind.bomb, 10, -60⟩], score := 0,
    targetShape := Kind.circle, currentLevel := 0, levelUp := false, particles := [],
    soundEnabled := false, nextParticleId := 0 }

/-- First level with thirty circles on screen, with ids 0 to 29. -/
def fullScreen : GameState :=
  { shapes := (List.range 30).map fun i => ⟨i, Kind.circle, 0, 0⟩, score := 0,
    targetShape := Kind.circle, currentLevel := 0, levelUp := false, particles := [],
    soundEnabled := false, nextParticleId := 0 }

/-- The draw 0.04: the double `5764607523034235 / 2 ^ 57`. -/
def draw004 : Draw :=
  ⟨5764607523034235 / 2 ^ 57, by norm_num, by norm_num,
    5764607523034235, 57, by norm_num, by norm_num, by norm_num⟩

/-- The draw 0.07: the double `1261007895663739 / 2 ^ 54`. -/
def draw007 : Draw :=
  ⟨1261007895663739 / 2 ^ 54, by norm_num, by norm_num,
    1261007895663739, 54, by norm_num, by norm_num, by norm_num⟩

/-- The draw 0.22999999999999998: the double `517913957147607 / 2 ^ 51`, which
is also what `0.08 + 0.15` gives in doubles. -/
def draw023 : Draw :=
  ⟨517913957147607 / 2 ^ 51, by norm_num, by norm_num,
    517913957147607, 51, by norm_num, by norm_num, by norm_num⟩

/-- The draw 0.6666666666666666: the double `6004799503160661 / 2 ^ 53`, the
largest one whose product with 3 is below 2 before rounding. -/
def drawTwoThirds : Draw :=
  ⟨6004799503160661 / 2 ^ 53, by norm_num, by norm_num,
    6004799503160661, 53, by norm_num, by norm_num, by norm_num⟩

/-- The ids of the live particles are pairwise distinct and all below the
counter `nextParticleId`. -/
def PInv (s : GameState) : Prop :=
  (∀ p ∈ s.particles, p.id < s.nextParticleId) ∧
    s.particles.Pairwise (fun p q => p.id ≠ q.id)

/-- The five particles pushed by `createParticles` when the counter is at `n`. -/
def burstAt (n : Nat) (x : ℚ) (y : Int) (color : String) (b : BurstDraws) : List Particle :=
  (List.range 5).map fun i =>
    { id := n + i, x := x, y := y, color := color,
      dx := toDouble (toDouble
        (b.cosA i * toDouble (toDouble ((b.dist i).val * 30) + 20)) / 10),
      dy := toDouble (toDouble
        (b.sinA i * toDouble (toDouble ((b.dist i).val * 30) + 20)) / 10), life := 10 }

/-- One handler run other than a tick. -/
inductive Quiet : GameState → GameState → Prop
  | spawn {s s' : GameState} (rand pick pos : Draw) (now innerWidth : Int) :
      spawnShape s rand pick pos now innerWidth = some s' → Quiet s s'
  | rotate {s s' : GameState} (r : Draw) :
      rotateTarget s r = some s' → Quiet s s'
  | tap {s s' : GameState} (sh : Shape) (b : BurstDraws) :
      sh ∈ s.shapes → handleShapeTap s sh.id sh.type sh.left sh.top b = some s' → Quiet s s'
  | banner (s : GameState) : Quiet s (clearLevelUp s)
  | sound (s : GameState) : Quiet s (enableSound s)

/-- A sequence of handler runs from the first state to the second during which
`animateShapes` ran exactly `k` times, with any other handlers in between. -/
inductive Ticks : Nat → GameState → GameState → Prop
  | refl (s : GameState) : Ticks 0 s s
  | tick {k : Nat} {s s1 s2 : GameState} (innerHeight : Int) :
      Ticks k s s1 → animateShapes s1 innerHeight = some s2 → Ticks (k + 1) s s2
  | quiet {k : Nat} {s s1 s2 : GameState} :
      Ticks k s s1 → Quiet s1 s2 → Ticks k s s2

/-- The state after the circle of `circleAtStart` is tapped: score 1 and the
five particles of the burst. -/
def afterFirstTap : GameState :=
  { shapes := [], score := 1, targetShape := Kind.circle, currentLevel := 0,
    levelUp := false,
    particles := burstAt 0 0 (-60) (shapeColors Kind.circle) flatBurst,
    soundEnabled := false, nextParticleId := 5 }

/-- The first particle of the burst in `afterFirstTap`. -/
def firstParticle : Particle :=
  { id := 0, x := 0, y := -60, color := shapeColors Kind.circle, dx := 2, dy := 0,
    life := 10 }

/-- The state one tick after `afterFirstTap`. -/
def afterFirstTick : GameState :=
  { afterFirstTap with
    particles :=
      (afterFirstTap.particles.map fun p => { p with life := p.life - 1 }).filter
        fun p => p.life > 0 }

/-- The initial state after two spawns that both read `Date.now() = 1`: a golden
shape and a circle with the same id. -/
def twins : GameState :=
  { shapes := [⟨1, Kind.golden, 0, -60⟩, ⟨1, Kind.circle, 370, -60⟩], score := 0,
    targetShape := Kind.circle, currentLevel := 0, levelUp := false, particles := [],
    soundEnabled := false, nextParticleId := 0 }

/-! ## Rounding to doubles -/

theorem roundEven_intCast (n : ℤ) : roundEven n = n := by
  simp [roundEven]

theorem abs_roundEven_sub (x : ℚ) : |(roundEven x : ℚ) - x| ≤ 1 / 2 := by
  have h0 := Int.floor_le x
  have h1 := Int.lt_floor_add_one x
  unfold roundEven
  split_ifs with h2 h3 h4
  · rw [abs_le]; constructor <;> linarith
  · push_cast; rw [abs_le]; constructor <;> linarith
  · rw [abs_le]; constructor <;> linarith
  · push_cast; rw [abs_le]; constructor <;> linarith

theorem le_roundEven {x : ℚ} {n : ℤ} (h : (n : ℚ) ≤ x) : n ≤ roundEven x := by
  have hf : n ≤ ⌊x⌋ := Int.le_floor.mpr h
  unfold roundEven
  split_ifs <;> omega

theorem roundEven_le {x : ℚ} {n : ℤ} (h : x ≤ (n : ℚ)) : roundEven x ≤ n := by
  have h0 := Int.floor_le x
  have hf : ⌊x⌋ ≤ n := by
    have : (⌊x⌋ : ℚ) ≤ n := le_trans h0 h
    exact_mod_cast this
  by_cases he : (⌊x⌋ : ℚ) = x
  · have : x - ⌊x⌋ < 1 / 2 := by rw [he]; norm_num
    unfold roundEven
    rw [if_pos this]
    exact hf
  · have hlt : (⌊x⌋ : ℚ) < n := lt_of_lt_of_le (lt_of_le_of_ne h0 he) h
    have hlt' : ⌊x⌋ < n := by exact_mod_cast hlt
    unfold roundEven
    split_ifs <;> omega

theorem roundEven_eq_of_abs_lt {x : ℚ} {n : ℤ} (h : |x - n| < 1 / 2) : roundEven x = n := by
  have h1 := abs_roundEven_sub x
  rw [abs_lt] at h
  rw [abs_le] at h1
  have : |((roundEven x - n : ℤ) : ℚ)| < 1 := by
    push_cast
    rw [abs_lt]
    constructor <;> linarith [h.1, h.2, h1.1, h1.2]
  have h2 : |roundEven x - n| < 1 := by exact_mod_cast this
  have := Int.abs_lt_one_iff.mp h2
  omega

theorem roundEven_tie {x : ℚ} {n : ℤ} (h : x = n + 1 / 2) (he : n % 2 = 0) :
    roundEven x = n := by
  have hf : ⌊x⌋ = n := by
    rw [Int.floor_eq_iff, h]
    constructor <;> linarith
  unfold roundEven
  rw [hf, h]
  norm_num [he]

theorem roundEven_tie_odd {x : ℚ} {n : ℤ} (h : x = n + 1 / 2) (ho : n % 2 = 1) :
    roundEven x = n + 1 := by
  have hf : ⌊x⌋ = n := by
    rw [Int.floor_eq_iff, h]
    constructor <;> linarith
  unfold roundEven
  rw [hf, h]
  norm_num [ho]

theorem roundEven_nonneg {x : ℚ} (h : 0 ≤ x) : 0 ≤ roundEven x :=
  le_roundEven (by exact_mod_cast h)

theorem expOf_ge (q : ℚ) : -1022 ≤ expOf q := le_max_right _ _

theorem ulp_pos (q : ℚ) : (0 : ℚ) < 2 ^ (expOf q - 52) := zpow_pos (by norm_num) _

theorem lt_zpow_expOf {q : ℚ} (h : 0 < q) : q < 2 ^ (expOf q + 1) := by
  have h1 : q < ((2 : ℕ) : ℚ) ^ (Int.log 2 q + 1) := Int.lt_zpow_succ_log_self (by norm_num) q
  have h2 : ((2 : ℕ) : ℚ) ^ (Int.log 2 q + 1) ≤ ((2 : ℕ) : ℚ) ^ (expOf q + 1) := by
    apply zpow_le_zpow_right₀ (by norm_num)
    have : Int.log 2 q ≤ expOf q := by
      unfold expOf
      rw [abs_of_pos h]
      exact le_max_left _ _
    omega
  have h3 := lt_of_lt_of_le h1 h2
  simpa using h3

theorem expOf_le {q : ℚ} {e : ℤ} (h : 0 < q) (hlt : q < 2 ^ (e + 1)) (he : -1022 ≤ e) :
    expOf q ≤ e := by
  unfold expOf
  rw [abs_of_pos h]
  apply max_le _ he
  have : Int.log 2 q < e + 1 := by
    rw [← Int.lt_zpow_iff_log_lt (by norm_num) h]
    simpa using hlt
  omega

/-- In the normal range the exponent is the one of the binade. -/
theorem expOf_eq {q : ℚ} {e : ℤ} (h : 0 < q) (hle : 2 ^ e ≤ q) (hlt : q < 2 ^ (e + 1))
    (he : -1022 ≤ e) : expOf q = e := by
  apply le_antisymm (expOf_le h hlt he)
  unfold expOf
  rw [abs_of_pos h]
  apply le_max_of_le_left
  rw [← Int.zpow_le_iff_le_log (by norm_num) h]
  simpa using hle

/-- Above the clamp a positive number is at least the power of its exponent. -/
theorem zpow_expOf_le {q : ℚ} (h : 0 < q) (he : -1022 < expOf q) : 2 ^ expOf q ≤ q := by
  have h1 : expOf q = Int.log 2 q := by
    unfold expOf at he ⊢
    rw [abs_of_pos h] at he ⊢
    rcases le_total (Int.log 2 q) (-1022) with hc | hc
    · rw [max_eq_right hc] at he
      omega
    · exact max_eq_left hc
  rw [h1]
  have := Int.zpow_log_le_self (R := ℚ) (b := 2) (by norm_num) h
  simpa using this

theorem toDouble_zero : toDouble 0 = 0 := by
  simp [toDouble, roundEven]

theorem toDouble_nonneg {q : ℚ} (h : 0 ≤ q) : 0 ≤ toDouble q := by
  unfold toDouble
  apply mul_nonneg
  · exact_mod_cast roundEven_nonneg (div_nonneg h (le_of_lt (ulp_pos q)))
  · exact le_of_lt (ulp_pos q)

/-- The value of `toDouble` once the binade is known. -/
theorem toDouble_eq {q : ℚ} {e : ℤ} (h : 0 < q) (hle : 2 ^ e ≤ q) (hlt : q < 2 ^ (e + 1))
    (he : -1022 ≤ e) : toDouble q = roundEven (q / 2 ^ (e - 52)) * 2 ^ (e - 52) := by
  unfold toDouble
  rw [expOf_eq h hle hlt he]

/-- The rounding error is at most half a unit in the last place. -/
theorem abs_toDouble_sub {q : ℚ} {e : ℤ} (h : 0 < q) (hlt : q < 2 ^ (e + 1))
    (he : -1022 ≤ e) : |toDouble q - q| ≤ 2 ^ (e - 52) / 2 := by
  have hu := ulp_pos q
  have hr := abs_roundEven_sub (q / 2 ^ (expOf q - 52))
  have h1 : toDouble q - q =
      ((roundEven (q / 2 ^ (expOf q - 52)) : ℚ) - q / 2 ^ (expOf q - 52)) *
        2 ^ (expOf q - 52) := by
    unfold toDouble
    field_simp
  rw [h1, abs_mul, abs_of_pos hu]
  have h2 : (2 : ℚ) ^ (expOf q - 52) ≤ 2 ^ (e - 52) := by
    apply zpow_le_zpow_right₀ (by norm_num)
    have := expOf_le h hlt he
    omega
  calc |(roundEven (q / 2 ^ (expOf q - 52)) : ℚ) - q / 2 ^ (expOf q - 52)| *
        2 ^ (expOf q - 52)
      ≤ 1 / 2 * 2 ^ (expOf q - 52) := mul_le_mul_of_nonneg_right hr (le_of_lt hu)
    _ ≤ 1 / 2 * 2 ^ (e - 52) := by linarith
    _ = 2 ^ (e - 52) / 2 := by ring

/-- A grid point `M * 2 ^ k` written in units of a finer or equal grid. -/
theorem grid_rescale (M : ℕ) {k j : ℤ} (h : j ≤ k) :
    (M : ℚ) * 2 ^ k = ((M * 2 ^ (k - j).toNat : ℕ) : ℤ) * (2 : ℚ) ^ j := by
  have hk : k = (((k - j).toNat : ℕ) : ℤ) + j := by
    rw [Int.toNat_of_nonneg (by omega)]
    ring
  have h2 : (2 : ℚ) ^ k = 2 ^ (k - j).toNat * 2 ^ j := by
    conv_lhs => rw [hk]
    rw [zpow_add₀ (by norm_num), zpow_natCast]
  rw [h2]
  push_cast
  ring

theorem two53_zpow (e : ℤ) : (2 : ℚ) ^ (53 : ℕ) * 2 ^ (e - 52) = 2 ^ (e + 1) := by
  rw [← zpow_natCast, ← zpow_add₀ (by norm_num)]
  congr 1
  push_cast
  ring

theorem two52_zpow (e : ℤ) : (2 : ℚ) ^ (52 : ℕ) * 2 ^ (e - 52) = 2 ^ e := by
  rw [← zpow_natCast, ← zpow_add₀ (by norm_num)]
  congr 1
  push_cast
  ring

theorem two53_zpow_num (e : ℤ) : (9007199254740992 : ℚ) * 2 ^ (e - 52) = 2 ^ (e + 1) := by
  rw [← two53_zpow e]
  norm_num

theorem two52_zpow_num (e : ℤ) : (4503599627370496 : ℚ) * 2 ^ (e - 52) = 2 ^ e := by
  rw [← two52_zpow e]
  norm_num

/-- A double below `x` stays below the rounded `x`. -/
theorem grid_le_toDouble {x : ℚ} (hx : 0 < x) (M : ℕ) (k : ℤ) (hM : M < 2 ^ 53)
    (hk : -1074 ≤ k) (h : (M : ℚ) * 2 ^ k ≤ x) : (M : ℚ) * 2 ^ k ≤ toDouble x := by
  have hu := ulp_pos x
  by_cases hke : expOf x - 52 ≤ k
  · rw [grid_rescale M hke] at h ⊢
    unfold toDouble
    apply mul_le_mul_of_nonneg_right _ (le_of_lt hu)
    have h1 : (((M * 2 ^ (k - (expOf x - 52)).toNat : ℕ) : ℤ) : ℚ) ≤
        x / 2 ^ (expOf x - 52) := by
      rw [le_div_iff₀ hu]
      exact h
    exact_mod_cast le_roundEven h1
  · have he : -1022 < expOf x := by omega
    have h1 := zpow_expOf_le hx he
    have h2 : (((2 ^ 52 : ℕ) : ℤ) : ℚ) ≤ x / 2 ^ (expOf x - 52) := by
      rw [le_div_iff₀ hu]
      push_cast
      rw [two52_zpow_num]
      exact h1
    have h3 := le_roundEven h2
    have h4 : (2 : ℚ) ^ expOf x ≤ toDouble x := by
      unfold toDouble
      rw [← two52_zpow (expOf x)]
      apply mul_le_mul_of_nonneg_right _ (le_of_lt hu)
      exact_mod_cast h3
    have h5 : (M : ℚ) * 2 ^ k ≤ 2 ^ expOf x := by
      have hM' : (M : ℚ) ≤ 2 ^ (53 : ℕ) := by exact_mod_cast le_of_lt hM
      have hkpos : (0 : ℚ) < 2 ^ k := zpow_pos (by norm_num) _
      calc (M : ℚ) * 2 ^ k ≤ 2 ^ (53 : ℕ) * 2 ^ k :=
            mul_le_mul_of_nonneg_right hM' (le_of_lt hkpos)
        _ = 2 ^ (53 + k) := by
            rw [← zpow_natCast, ← zpow_add₀ (by norm_num)]
            congr 1
        _ ≤ 2 ^ expOf x := by
            apply zpow_le_zpow_right₀ (by norm_num)
            omega
    exact le_trans h5 h4

/-- A double above `x` stays above the rounded `x`. -/
theorem toDouble_le_grid {x : ℚ} (hx : 0 < x) (M : ℕ) (k : ℤ) (hM : M < 2 ^ 53)
    (hk : -1074 ≤ k) (h : x ≤ (M : ℚ) * 2 ^ k) : toDouble x ≤ (M : ℚ) * 2 ^ k := by
  have hu := ulp_pos x
  by_cases hke : expOf x - 52 ≤ k
  · rw [grid_rescale M hke] at h ⊢
    unfold toDouble
    apply mul_le_mul_of_nonneg_right _ (le_of_lt hu)
    have h1 : x / 2 ^ (expOf x - 52) ≤
        (((M * 2 ^ (k - (expOf x - 52)).toNat : ℕ) : ℤ) : ℚ) := by
      rw [div_le_iff₀ hu]
      exact h
    exact_mod_cast roundEven_le h1
  · exfalso
    have he : -1022 < expOf x := by omega
    have h1 := zpow_expOf_le hx he
    have hM' : (M : ℚ) < 2 ^ (53 : ℕ) := by exact_mod_cast hM
    have hkpos : (0 : ℚ) < 2 ^ k := zpow_pos (by norm_num) _
    have h5 : (M : ℚ) * 2 ^ k < 2 ^ expOf x := by
      calc (M : ℚ) * 2 ^ k < 2 ^ (53 : ℕ) * 2 ^ k := mul_lt_mul_of_pos_right hM' hkpos
        _ = 2 ^ (53 + k) := by
            rw [← zpow_natCast, ← zpow_add₀ (by norm_num)]
            congr 1
        _ ≤ 2 ^ expOf x := by
            apply zpow_le_zpow_right₀ (by norm_num)
            omega
    linarith

/-- A double is its own rounding. -/
theorem toDouble_of_grid (M : ℕ) (k : ℤ) (hM : M < 2 ^ 53) (hk : -1074 ≤ k) :
    toDouble ((M : ℚ) * 2 ^ k) = (M : ℚ) * 2 ^ k := by
  rcases Nat.eq_zero_or_pos M with h0 | hpos
  · subst h0
    simp [toDouble_zero]
  · have hx : (0 : ℚ) < (M : ℚ) * 2 ^ k :=
      mul_pos (by exact_mod_cast hpos) (zpow_pos (by norm_num) _)
    exact le_antisymm (toDouble_le_grid hx M k hM hk (le_refl _))
      (grid_le_toDouble hx M k hM hk (le_refl _))

/-- A natural number below `2 ^ 53` is a double. -/
theorem toDouble_natCast (n : ℕ) (h : n < 2 ^ 53) : toDouble (n : ℚ) = n := by
  have := toDouble_of_grid n 0 h (by norm_num)
  simpa using this

/-- The rounding of a positive number is a double. -/
theorem toDouble_grid {x : ℚ} (hx : 0 < x) :
    ∃ (M : ℕ) (k : ℤ), M < 2 ^ 53 ∧ -1074 ≤ k ∧ toDouble x = (M : ℚ) * 2 ^ k := by
  have hu := ulp_pos x
  have hge := expOf_ge x
  have h0 : 0 ≤ roundEven (x / 2 ^ (expOf x - 52)) :=
    roundEven_nonneg (div_nonneg (le_of_lt hx) (le_of_lt hu))
  have h1 : roundEven (x / 2 ^ (expOf x - 52)) ≤ ((2 ^ 53 : ℕ) : ℤ) := by
    apply roundEven_le
    rw [div_le_iff₀ hu]
    push_cast
    rw [two53_zpow_num]
    exact le_of_lt (lt_zpow_expOf hx)
  rcases lt_or_eq_of_le h1 with hlt | heq
  · refine ⟨(roundEven (x / 2 ^ (expOf x - 52))).toNat, expOf x - 52, ?_, by omega, ?_⟩
    · have := Int.toNat_of_nonneg h0
      omega
    · unfold toDouble
      congr 1
      have := Int.toNat_of_nonneg h0
      exact_mod_cast this.symm
  · refine ⟨1, expOf x + 1, by norm_num, by omega, ?_⟩
    unfold toDouble
    rw [heq]
    push_cast
    rw [two53_zpow_num]
    ring

/-! ## Basic facts about the level table and the handlers -/

theorem levelSettings_length : levelSettings.length = 8 := rfl

theorem level_lookup {i : Nat} (h : i < levelSettings.length) :
    ∃ lvl, levelSettings[i]? = some lvl :=
  ⟨levelSettings[i], List.getElem?_eq_getElem h⟩

theorem level_lookup_lt {i : Nat} {lvl : LevelConfig} (h : levelSettings[i]? = some lvl) :
    i < levelSettings.length :=
  (List.getElem?_eq_some_iff.mp h).1

/-- Consecutive targets of the table are at least five apart and the first
target is positive. -/
theorem target_gap {i : Nat} {lvl lvl' : LevelConfig}
    (h : levelSettings[i]? = some lvl) (h' : levelSettings[i + 1]? = some lvl') :
    lvl.targetScore + 5 ≤ lvl'.targetScore := by
  have hi := level_lookup_lt h'
  rw [levelSettings_length] at hi
  have hi7 : i < 7 := by omega
  interval_cases i <;> simp [levelSettings] at h h' <;> subst h <;> subst h' <;> decide

theorem first_target {lvl : LevelConfig} (h : levelSettings[0]? = some lvl) :
    lvl.targetScore = 5 := by
  simp [levelSettings] at h
  subst h
  rfl

theorem last_target {lvl : LevelConfig} (h : levelSettings[7]? = some lvl) :
    lvl.targetScore = 60 := by
  simp [levelSettings] at h
  subst h
  rfl

/-- What one run of `handleShapeTap` does to each field, given the row of the
current level. -/
theorem tap_spec {s s' : GameState} {id : Int} {type : Kind} {left : ℚ} {top : Int}
    {b : BurstDraws} {lvl : LevelConfig}
    (hl : levelSettings[s.currentLevel]? = some lvl)
    (ht : handleShapeTap s id type left top b = some s') :
    s'.shapes = s.shapes.filter (fun sh => sh.id ≠ id) ∧
    s'.targetShape = s.targetShape ∧
    s'.soundEnabled = s.soundEnabled ∧
    s'.nextParticleId = s.nextParticleId + 5 ∧
    s'.particles = (createParticles s left top (shapeColors type) b).particles ∧
    (newScore s type < lvl.targetScore →
      s'.score = newScore s type ∧ s'.currentLevel = s.currentLevel ∧
        s'.levelUp = s.levelUp) ∧
    (lvl.targetScore ≤ newScore s type → s.currentLevel + 1 < levelSettings.length →
      s'.score = newScore s type ∧ s'.currentLevel = s.currentLevel + 1 ∧
        s'.levelUp = true) ∧
    (lvl.targetScore ≤ newScore s type → ¬ s.currentLevel + 1 < levelSettings.length →
      s'.score = 0 ∧ s'.currentLevel = 0 ∧ s'.levelUp = true) := by
  unfold handleShapeTap at ht
  simp only [hl] at ht
  by_cases hge : newScore s type ≥ lvl.targetScore
  · by_cases hn : s.currentLevel + 1 < levelSettings.length
    · simp only [hge, hn, if_true, Option.some.injEq] at ht
      subst ht
      refine ⟨rfl, rfl, rfl, rfl, rfl, ?_, ?_, ?_⟩
      · intro h; exact absurd hge (not_le.mpr h)
      · intro _ _; exact ⟨rfl, rfl, rfl⟩
      · intro _ h; exact absurd hn h
    · simp only [hge, hn, if_true, if_false, Option.some.injEq] at ht
      subst ht
      refine ⟨rfl, rfl, rfl, rfl, rfl, ?_, ?_, ?_⟩
      · intro h; exact absurd hge (not_le.mpr h)
      · intro _ h; exact absurd h hn
      · intro _ _; exact ⟨rfl, rfl, rfl⟩
  · simp only [hge, if_false, Option.some.injEq] at ht
    subst ht
    refine ⟨rfl, rfl, rfl, rfl, rfl, ?_, ?_, ?_⟩
    · intro _; exact ⟨rfl, rfl, rfl⟩
    · intro h; exact absurd h hge
    · intro h; exact absurd h hge

/-- On a valid level index `handleShapeTap` returns a state. -/
theorem tap_total (s : GameState) (id : Int) (type : Kind) (left : ℚ) (top : Int)
    (b : BurstDraws) (h : s.currentLevel < levelSettings.length) :
    ∃ s', handleShapeTap s id type left top b = some s' := by
  obtain ⟨lvl, hl⟩ := level_lookup h
  unfold handleShapeTap
  simp only [hl]
  split_ifs <;> exact ⟨_, rfl⟩

/-- With the level row at hand the `map` of `animateShapes` is an ordinary map. -/
theorem mapM_advance (xs : List Shape) (i : Nat) (lvl : LevelConfig)
    (hl : levelSettings[i]? = some lvl) :
    (xs.mapM fun sh =>
      (levelSettings[i]?).map fun l => ({ sh with top := sh.top + l.speed } : Shape)) =
      some (xs.map fun sh => { sh with top := sh.top + lvl.speed }) := by
  rw [← List.mapM'_eq_mapM]
  induction xs with
  | nil => rfl
  | cons x xs ih =>
    simp only [hl, Option.map_some'] at ih
    simp [List.mapM', ih, hl]

/-- A double below one is at most `1 - 2 ^ (-53)`. -/
theorem draw_le (r : Draw) : r.val ≤ 1 - 1 / 2 ^ 53 := by
  obtain ⟨m, k, hm, _, hv⟩ := r.double
  have hlt := r.lt_one
  rw [hv] at hlt ⊢
  have hpos : (0 : ℚ) < 2 ^ k := by positivity
  rw [div_le_iff₀ hpos]
  rcases le_or_lt k 53 with hk | hk
  · have h1 : (m : ℚ) < 2 ^ k := by rwa [div_lt_one hpos] at hlt
    have h2 : m < 2 ^ k := by exact_mod_cast h1
    have h3 : (m : ℚ) + 1 ≤ 2 ^ k := by exact_mod_cast h2
    have h4 : (2 : ℚ) ^ k ≤ 2 ^ 53 := pow_le_pow_right₀ (by norm_num) hk
    have h5 : (2 : ℚ) ^ k / 2 ^ 53 ≤ 1 := by
      rw [div_le_one (by positivity)]
      exact h4
    have h6 : (1 - 1 / 2 ^ 53 : ℚ) * 2 ^ k = 2 ^ k - 2 ^ k / 2 ^ 53 := by ring
    rw [h6]
    linarith
  · have h1 : (m : ℚ) < 2 ^ 53 := by exact_mod_cast hm
    have h2 : (2 : ℚ) ^ 54 ≤ 2 ^ k := pow_le_pow_right₀ (by norm_num) hk
    have h3 : (1 / 2 : ℚ) * 2 ^ k ≤ (1 - 1 / 2 ^ 53) * 2 ^ k :=
      mul_le_mul_of_nonneg_right (by norm_num) (le_of_lt hpos)
    have h4 : (2 : ℚ) ^ 53 = 1 / 2 * 2 ^ 54 := by norm_num
    linarith

/-- The rounded product of a draw with 3 lies in `[0, 3)`. -/
theorem toDouble_times_three (r : Draw) :
    0 ≤ toDouble (r.val * 3) ∧ toDouble (r.val * 3) < 3 := by
  have h0 := r.nonneg
  refine ⟨toDouble_nonneg (by linarith), ?_⟩
  rcases eq_or_lt_of_le h0 with hz | hpos
  · rw [← hz]
    simp [toDouble_zero]
  · have hx : 0 < r.val * 3 := by linarith
    have hle := draw_le r
    have herr := abs_toDouble_sub (e := 1) hx (by norm_num; linarith [r.lt_one])
      (by norm_num)
    rw [abs_le] at herr
    have h2 : (2 : ℚ) ^ ((1 : ℤ) - 52) / 2 = 1 / 2 ^ 52 := by norm_num
    rw [h2] at herr
    have h3 : (1 : ℚ) / 2 ^ 52 = 2 * (1 / 2 ^ 53) := by norm_num
    linarith [herr.2]

/-- The index drawn by `randomPlain` is always inside `shapesList`. -/
theorem randomPlain_total (r : Draw) : ∃ k, randomPlain r = some k ∧ k ∈ shapesList := by
  obtain ⟨hnn, hlt3⟩ := toDouble_times_three r
  have hlen : ((shapesList.length : ℕ) : ℚ) = 3 := by
    simp [shapesList]
  have h0 : (0 : ℤ) ≤ Int.floor (toDouble (r.val * (shapesList.length : ℚ))) := by
    rw [hlen]
    exact Int.floor_nonneg.mpr hnn
  have h3 : Int.floor (toDouble (r.val * (shapesList.length : ℚ))) < 3 := by
    rw [hlen, Int.floor_lt]
    exact_mod_cast hlt3
  have hlt : (Int.floor (toDouble (r.val * (shapesList.length : ℚ)))).toNat <
      shapesList.length := by
    have hl3 : shapesList.length = 3 := rfl
    omega
  refine ⟨shapesList[(Int.floor (toDouble (r.val * (shapesList.length : ℚ)))).toNat], ?_, ?_⟩
  · unfold randomPlain
    exact List.getElem?_eq_getElem hlt
  · exact List.getElem_mem hlt

theorem randomPlain_mem {r : Draw} {k : Kind} (h : randomPlain r = some k) :
    k ∈ shapesList := by
  obtain ⟨k', hk, hm⟩ := randomPlain_total r
  rw [h] at hk
  cases hk
  exact hm

theorem spawnType_total (lvl : LevelConfig) (rand pick : Draw) :
    ∃ k, spawnType lvl rand pick = some k := by
  obtain ⟨k, hk, _⟩ := randomPlain_total pick
  unfold spawnType
  split_ifs
  · exact ⟨_, rfl⟩
  · exact ⟨_, rfl⟩
  · exact ⟨k, hk⟩

/-- What `spawnShape` does to each field. -/
theorem spawn_spec {s s' : GameState} {rand pick pos : Draw} {now innerWidth : Int}
    (h : spawnShape s rand pick pos now innerWidth = some s') :
    ∃ k : Kind, s' = { s with
      shapes := sliceLast 30 (s.shapes ++ [⟨now, k, toDouble (pos.val * (innerWidth - 60)), -60⟩]) } := by
  unfold spawnShape at h
  split at h
  · cases h
  · split at h
    · cases h
    · rename_i k _
      exact ⟨k, (Option.some.inj h).symm⟩

/-- On a valid level index `spawnShape` returns a state. -/
theorem spawn_total (s : GameState) (rand pick pos : Draw) (now innerWidth : Int)
    (h : s.currentLevel < levelSettings.length) :
    ∃ s', spawnShape s rand pick pos now innerWidth = some s' := by
  obtain ⟨lvl, hl⟩ := level_lookup h
  obtain ⟨k, hk⟩ := spawnType_total lvl rand pick
  unfold spawnShape
  simp only [hl, hk]
  exact ⟨_, rfl⟩

/-- What `rotateTarget` does to each field. -/
theorem rotate_spec {s s' : GameState} {r : Draw} (h : rotateTarget s r = some s') :
    ∃ k : Kind, k ∈ shapesList ∧ s' = { s with targetShape := k } := by
  unfold rotateTarget at h
  split at h
  · cases h
  · rename_i k hk
    exact ⟨k, randomPlain_mem hk, (Option.some.inj h).symm⟩

theorem rotate_total (s : GameState) (r : Draw) : ∃ s', rotateTarget s r = some s' := by
  obtain ⟨k, hk, _⟩ := randomPlain_total r
  refine ⟨{ s with targetShape := k }, ?_⟩
  unfold rotateTarget
  rw [hk]

/-- What `animateShapes` does to each field. -/
theorem tick_spec {s s' : GameState} {innerHeight : Int}
    (h : animateShapes s innerHeight = some s') :
    ∃ moved : List Shape,
      s' = { s with
        shapes := moved.filter fun sh => sh.top < innerHeight
        particles :=
          (s.particles.map fun p => { p with life := p.life - 1 }).filter
            fun p => p.life > 0 } := by
  unfold animateShapes at h
  split at h
  · cases h
  · rename_i moved _
    exact ⟨moved, (Option.some.inj h).symm⟩

/-- On a valid level index `animateShapes` returns the advanced, filtered lists. -/
theorem tick_eq (s : GameState) (innerHeight : Int) (lvl : LevelConfig)
    (hl : levelSettings[s.currentLevel]? = some lvl) :
    animateShapes s innerHeight = some { s with
      shapes := (s.shapes.map fun sh => { sh with top := sh.top + lvl.speed }).filter
        fun sh => sh.top < innerHeight
      particles :=
        (s.particles.map fun p => { p with life := p.life - 1 }).filter
          fun p => p.life > 0 } := by
  unfold animateShapes
  rw [mapM_advance s.shapes s.currentLevel lvl hl]

/-! ## The invariant of the reachable states -/

theorem newScore_le (s : GameState) (type : Kind) (h : 0 ≤ s.score) :
    newScore s type ≤ s.score + 5 := by
  unfold newScore
  split_ifs <;> omega

theorem newScore_nonneg (s : GameState) (type : Kind) (h : 0 ≤ s.score) :
    0 ≤ newScore s type := by
  unfold newScore
  split_ifs <;> omega

theorem newScore_golden (s : GameState) : newScore s Kind.golden = s.score + 5 := by
  simp [newScore]

theorem newScore_target (s : GameState) (h : s.targetShape ∈ shapesList) :
    newScore s s.targetShape = s.score + 1 := by
  have hg : s.targetShape ≠ Kind.golden := by
    intro hg
    rw [hg] at h
    simp [shapesList] at h
  simp [newScore, hg]

theorem newScore_bomb (s : GameState) (h : s.targetShape ∈ shapesList) :
    newScore s Kind.bomb = max 0 (s.score - 5) := by
  have hb : Kind.bomb ≠ s.targetShape := by
    intro hb
    rw [← hb] at h
    simp [shapesList] at h
  simp [newScore, hb]

theorem newScore_wrong (s : GameState) (type : Kind) (hp : type ∈ shapesList)
    (hne : type ≠ s.targetShape) : newScore s type = max 0 (s.score - 1) := by
  have hg : type ≠ Kind.golden := by
    intro hg
    rw [hg] at hp
    simp [shapesList] at hp
  have hb : type ≠ Kind.bomb := by
    intro hb
    rw [hb] at hp
    simp [shapesList] at hp
  simp [newScore, hne, hg, hb]

theorem inv_init : Inv initialState :=
  ⟨levelSettings[0], rfl, le_refl _, by decide, by decide⟩

theorem inv_tap {s s' : GameState} {id : Int} {type : Kind} {left : ℚ} {top : Int}
    {b : BurstDraws} (hi : Inv s) (ht : handleShapeTap s id type left top b = some s') :
    Inv s' := by
  obtain ⟨lvl, hl, h0, hlt, hts⟩ := hi
  obtain ⟨_, htg, _, _, _, hstay, hup, hwrap⟩ := tap_spec hl ht
  have hle := newScore_le s type h0
  have hnn := newScore_nonneg s type h0
  have hts' : s'.targetShape ∈ shapesList := by rw [htg]; exact hts
  by_cases hge : lvl.targetScore ≤ newScore s type
  · by_cases hn : s.currentLevel + 1 < levelSettings.length
    · obtain ⟨hsc, hlv, _⟩ := hup hge hn
      obtain ⟨lvl', hl'⟩ := level_lookup hn
      have hgap := target_gap hl hl'
      refine ⟨lvl', by rw [hlv]; exact hl', by omega, by omega, hts'⟩
    · obtain ⟨hsc, hlv, _⟩ := hwrap hge hn
      refine ⟨levelSettings[0], by rw [hlv]; rfl, by omega, by rw [hsc]; decide, hts'⟩
  · obtain ⟨hsc, hlv, _⟩ := hstay (not_le.mp hge)
    exact ⟨lvl, by rw [hlv]; exact hl, by omega, by omega, hts'⟩

theorem inv_step {s s' : GameState} (hi : Inv s) (hs : Step s s') : Inv s' := by
  cases hs with
  | spawn rand pick pos now innerWidth h =>
    obtain ⟨k, rfl⟩ := spawn_spec h
    exact hi
  | rotate r h =>
    obtain ⟨k, hk, rfl⟩ := rotate_spec h
    obtain ⟨lvl, hl, h0, hlt, _⟩ := hi
    exact ⟨lvl, hl, h0, hlt, hk⟩
  | tick innerHeight h =>
    obtain ⟨moved, rfl⟩ := tick_spec h
    exact hi
  | tap sh b _ h => exact inv_tap hi h
  | banner => exact hi
  | sound => exact hi

theorem inv_reachable {s : GameState} (hr : Reachable s) : Inv s := by
  induction hr with
  | init => exact inv_init
  | step _ hs ih => exact inv_step ih hs

/-! ## Reaching idle states

Between two taps the game can come to rest: no shape on screen and every
particle decayed. These states are small enough to be written out, and the
lemmas below move from one of them to the next by a spawn, a tap on the shape
just spawned and ten ticks. -/

theorem tap_some_level {s s' : GameState} {id : Int} {type : Kind} {left : ℚ} {top : Int}
    {b : BurstDraws} (ht : handleShapeTap s id type left top b = some s') :
    ∃ lvl, levelSettings[s.currentLevel]? = some lvl := by
  unfold handleShapeTap at ht
  split at ht
  · cases ht
  · rename_i lvl hl
    exact ⟨lvl, hl⟩

/-- Without shapes a tick only ages the particles. -/
theorem tick_idle (s : GameState) (innerHeight : Int) (hs : s.shapes = []) :
    animateShapes s innerHeight = some { s with
      particles :=
        (s.particles.map fun p => { p with life := p.life - 1 }).filter
          fun p => p.life > 0 } := by
  unfold animateShapes
  rw [hs]
  rfl

/-- Enough ticks remove every particle of a state without shapes. -/
theorem reach_decay (n : Nat) : ∀ s : GameState, Reachable s → s.shapes = [] →
    (∀ p ∈ s.particles, p.life ≤ n) → Reachable { s with particles := [] } := by
  induction n with
  | zero =>
    intro s hr hs hp
    have ht := tick_idle s 0 hs
    have hnil : ((s.particles.map fun p => { p with life := p.life - 1 }).filter
        fun p => p.life > 0) = [] := by
      rw [List.filter_eq_nil_iff]
      intro p hp'
      obtain ⟨q, hq, rfl⟩ := List.mem_map.mp hp'
      have := hp q hq
      simp only [gt_iff_lt, decide_eq_true_eq, not_lt]
      push_cast at this
      omega
    rw [hnil] at ht
    exact Reachable.step hr (Step.tick 0 ht)
  | succ n ih =>
    intro s hr hs hp
    have ht := tick_idle s 0 hs
    have hr' := Reachable.step hr (Step.tick 0 ht)
    have := ih _ hr' hs (by
      intro p hp'
      obtain ⟨hm, _⟩ := List.mem_filter.mp hp'
      obtain ⟨q, hq, rfl⟩ := List.mem_map.mp hm
      have := hp q hq
      push_cast at this
      show q.life - 1 ≤ (n : Int)
      omega)
    exact this

/-- A shape of kind `k` spawns in an idle state. -/
theorem reach_waiting {score : Int} {target : Kind} {level : Nat} {up : Bool} {pid : Nat}
    (hr : Reachable (idle score target level up pid)) (rand pick : Draw) (now : Int) (k : Kind)
    (h1 : (spawnShape (idle score target level up pid) rand pick zeroDraw now 800).map
      (fun s => s.shapes) = some [⟨now, k, 0, -60⟩]) :
    Reachable (waiting score target level up pid now k) := by
  cases hsp : spawnShape (idle score target level up pid) rand pick zeroDraw now 800 with
  | none => rw [hsp] at h1; cases h1
  | some s1 =>
    rw [hsp] at h1
    obtain ⟨k', rfl⟩ := spawn_spec hsp
    simp only [Option.map_some', Option.some.injEq] at h1
    have hs1 : Reachable _ := Reachable.step hr (Step.spawn rand pick zeroDraw now 800 hsp)
    simp only [h1] at hs1
    exact hs1

/-- The shape of a waiting state is tapped and the burst decays. -/
theorem reach_round {score : Int} {target : Kind} {level : Nat} {up : Bool} {pid : Nat}
    {now : Int} {k : Kind} (hr : Reachable (waiting score target level up pid now k))
    (score' : Int) (level' : Nat) (up' : Bool)
    (h2 : (handleShapeTap (waiting score target level up pid now k) now k 0 (-60) flatBurst).map
      (fun s => (s.score, s.currentLevel, s.levelUp)) = some (score', level', up')) :
    Reachable (idle score' target level' up' (pid + 5)) := by
  cases htp : handleShapeTap (waiting score target level up pid now k) now k 0 (-60) flatBurst with
  | none => rw [htp] at h2; cases h2
  | some s2 =>
    rw [htp] at h2
    simp only [Option.map_some', Option.some.injEq, Prod.mk.injEq] at h2
    obtain ⟨hsc, hlv, hup⟩ := h2
    obtain ⟨lvl, hl⟩ := tap_some_level htp
    obtain ⟨hsh, htg, hso, hpid, hpa, _⟩ := tap_spec hl htp
    have hr2 : Reachable s2 :=
      Reachable.step hr (Step.tap (⟨now, k, 0, -60⟩ : Shape) flatBurst (by simp [waiting]) htp)
    have hsh' : s2.shapes = [] := by
      rw [hsh]
      simp [waiting]
    have hlife : ∀ p ∈ s2.particles, p.life ≤ (10 : Nat) := by
      intro p hp
      rw [hpa] at hp
      simp only [createParticles, waiting, idle, List.nil_append, List.mem_map] at hp
      obtain ⟨i, _, rfl⟩ := hp
      simp
    have := reach_decay 10 s2 hr2 hsh' hlife
    have hidle : ({ s2 with particles := [] } : GameState) =
        idle score' target level' up' (pid + 5) := by
      cases s2
      simp only [waiting, idle] at *
      simp_all
    rw [hidle] at this
    exact this

theorem zeroDraw_val : zeroDraw.val = 0 := rfl

theorem halfDraw_val : halfDraw.val = 1 / 2 := rfl

theorem randomPlain_zero : randomPlain zeroDraw = some Kind.circle := by
  simp [randomPlain, zeroDraw_val, shapesList, toDouble_zero]

/-- The range of the chances in the table. -/
theorem row_chances {lvl : LevelConfig} (h : lvl ∈ levelSettings) :
    5 / 100 ≤ lvl.goldenChance ∧ lvl.goldenChance ≤ 8 / 100 ∧
    5 / 100 ≤ lvl.bombChance ∧ lvl.bombChance ≤ 18 / 100 := by
  simp only [levelSettings, List.mem_cons, List.mem_singleton, List.not_mem_nil,
    or_false] at h
  rcases h with h | h | h | h | h | h | h | h <;> subst h <;> norm_num

/-- In every row the golden threshold is at least `1 / 32` and the bomb
threshold at most `1 / 2`, after rounding. -/
theorem row_thresholds {lvl : LevelConfig} (h : lvl ∈ levelSettings) :
    1 / 32 ≤ toDouble lvl.goldenChance ∧ toDouble lvl.goldenChance ≤ 1 / 8 ∧
    toDouble (toDouble lvl.goldenChance + toDouble lvl.bombChance) ≤ 1 / 2 := by
  obtain ⟨hg1, hg2, hb1, hb2⟩ := row_chances h
  have hg0 : 0 < lvl.goldenChance := by linarith
  have hb0 : 0 < lvl.bombChance := by linarith
  have h1 := grid_le_toDouble hg0 1 (-5) (by norm_num) (by norm_num) (by norm_num; linarith)
  have h2 := toDouble_le_grid hg0 1 (-3) (by norm_num) (by norm_num) (by norm_num; linarith)
  have h3 := toDouble_le_grid hb0 1 (-2) (by norm_num) (by norm_num) (by norm_num; linarith)
  norm_num at h1 h2 h3
  have hs0 : 0 < toDouble lvl.goldenChance + toDouble lvl.bombChance := by
    have := toDouble_nonneg (le_of_lt hb0)
    linarith
  have h4 := toDouble_le_grid hs0 1 (-1) (by norm_num) (by norm_num) (by norm_num; linarith)
  norm_num at h4
  exact ⟨by linarith, by linarith, by linarith⟩

/-- On every row of the table the draw 0 gives a golden shape. -/
theorem spawnType_zeroDraw {lvl : LevelConfig} (pick : Draw) (h : lvl ∈ levelSettings) :
    spawnType lvl zeroDraw pick = some Kind.golden := by
  obtain ⟨h1, _, _⟩ := row_thresholds h
  unfold spawnType
  rw [if_pos (by rw [zeroDraw_val]; linarith)]

/-- On every row of the table the draw 0.5 followed by the pick 0 gives a
circle. -/
theorem spawnType_halfDraw {lvl : LevelConfig} (h : lvl ∈ levelSettings) :
    spawnType lvl halfDraw zeroDraw = some Kind.circle := by
  obtain ⟨_, h2, h3⟩ := row_thresholds h
  unfold spawnType
  rw [if_neg (by rw [halfDraw_val]; linarith), if_neg (by rw [halfDraw_val]; linarith)]
  exact randomPlain_zero

/-- The list of shapes after a spawn at the left edge of an idle state. -/
theorem spawn_idle_shapes {score : Int} {target : Kind} {level : Nat} {up : Bool} {pid : Nat}
    {rand pick : Draw} {now : Int} {k : Kind} (lvl : LevelConfig)
    (hl : levelSettings[level]? = some lvl) (hk : spawnType lvl rand pick = some k) :
    (spawnShape (idle score target level up pid) rand pick zeroDraw now 800).map
      (fun s => s.shapes) = some [⟨now, k, 0, -60⟩] := by
  unfold spawnShape
  simp only [idle]
  rw [hl]
  simp only []
  rw [hk]
  simp [sliceLast, zeroDraw_val, toDouble_zero]

/-- Seven golden shapes tapped in a row lead to level index 6 with score 35. -/
theorem reach_seventh : Reachable (idle 35 Kind.circle 6 true 35) := by
  have h0 : Reachable (idle 0 Kind.circle 0 false 0) := Reachable.init
  have h1 : Reachable (idle 5 Kind.circle 1 true 5) :=
    reach_round (reach_waiting h0 zeroDraw zeroDraw 0 Kind.golden
      (spawn_idle_shapes levelSettings[0] rfl
        (spawnType_zeroDraw zeroDraw (List.getElem_mem _))))
      5 1 true (by decide)
  have h2 : Reachable (idle 10 Kind.circle 2 true 10) :=
    reach_round (reach_waiting h1 zeroDraw zeroDraw 1 Kind.golden
      (spawn_idle_shapes levelSettings[1] rfl
        (spawnType_zeroDraw zeroDraw (List.getElem_mem _))))
      10 2 true (by decide)
  have h3 : Reachable (idle 15 Kind.circle 3 true 15) :=
    reach_round (reach_waiting h2 zeroDraw zeroDraw 2 Kind.golden
      (spawn_idle_shapes levelSettings[2] rfl
        (spawnType_zeroDraw zeroDraw (List.getElem_mem _))))
      15 3 true (by decide)
  have h4 : Reachable (idle 20 Kind.circle 4 true 20) :=
    reach_round (reach_waiting h3 zeroDraw zeroDraw 3 Kind.golden
      (spawn_idle_shapes levelSettings[3] rfl
        (spawnType_zeroDraw zeroDraw (List.getElem_mem _))))
      20 4 true (by decide)
  have h5 : Reachable (idle 25 Kind.circle 5 true 25) :=
    reach_round (reach_waiting h4 zeroDraw zeroDraw 4 Kind.golden
      (spawn_idle_shapes levelSettings[4] rfl
        (spawnType_zeroDraw zeroDraw (List.getElem_mem _))))
      25 5 true (by decide)
  have h6 : Reachable (idle 30 Kind.circle 5 true 30) :=
    reach_round (reach_waiting h5 zeroDraw zeroDraw 5 Kind.golden
      (spawn_idle_shapes levelSettings[5] rfl
        (spawnType_zeroDraw zeroDraw (List.getElem_mem _))))
      30 5 true (by decide)
  have h7 : Reachable (idle 35 Kind.circle 6 true 35) :=
    reach_round (reach_waiting h6 zeroDraw zeroDraw 6 Kind.golden
      (spawn_idle_shapes levelSettings[5] rfl
        (spawnType_zeroDraw zeroDraw (List.getElem_mem _))))
      35 6 true (by decide)
  exact h7

/-- Eleven golden shapes tapped in a row lead to the last level with score 55. -/
theorem reach_last_55 : Reachable (idle 55 Kind.circle 7 true 55) := by
  have h7 := reach_seventh
  have h8 : Reachable (idle 40 Kind.circle 6 true 40) :=
    reach_round (reach_waiting h7 zeroDraw zeroDraw 7 Kind.golden
      (spawn_idle_shapes levelSettings[6] rfl
        (spawnType_zeroDraw zeroDraw (List.getElem_mem _))))
      40 6 true (by decide)
  have h9 : Reachable (idle 45 Kind.circle 7 true 45) :=
    reach_round (reach_waiting h8 zeroDraw zeroDraw 8 Kind.golden
      (spawn_idle_shapes levelSettings[6] rfl
        (spawnType_zeroDraw zeroDraw (List.getElem_mem _))))
      45 7 true (by decide)
  have h10 : Reachable (idle 50 Kind.circle 7 true 50) :=
    reach_round (reach_waiting h9 zeroDraw zeroDraw 9 Kind.golden
      (spawn_idle_shapes levelSettings[7] rfl
        (spawnType_zeroDraw zeroDraw (List.getElem_mem _))))
      50 7 true (by decide)
  have h11 : Reachable (idle 55 Kind.circle 7 true 55) :=
    reach_round (reach_waiting h10 zeroDraw zeroDraw 10 Kind.golden
      (spawn_idle_shapes levelSettings[7] rfl
        (spawnType_zeroDraw zeroDraw (List.getElem_mem _))))
      55 7 true (by decide)
  exact h11

/-- Four more taps on circles, the target, lead to score 59 on the last level. -/
theorem reach_last_59 : Reachable (idle 59 Kind.circle 7 true 75) := by
  have h0 := reach_last_55
  have h1 : Reachable (idle 56 Kind.circle 7 true 60) :=
    reach_round (reach_waiting h0 halfDraw zeroDraw 11 Kind.circle
      (spawn_idle_shapes levelSettings[7] rfl (spawnType_halfDraw (List.getElem_mem _))))
      56 7 true (by decide)
  have h2 : Reachable (idle 57 Kind.circle 7 true 65) :=
    reach_round (reach_waiting h1 halfDraw zeroDraw 12 Kind.circle
      (spawn_idle_shapes levelSettings[7] rfl (spawnType_halfDraw (List.getElem_mem _))))
      57 7 true (by decide)
  have h3 : Reachable (idle 58 Kind.circle 7 true 70) :=
    reach_round (reach_waiting h2 halfDraw zeroDraw 13 Kind.circle
      (spawn_idle_shapes levelSettings[7] rfl (spawnType_halfDraw (List.getElem_mem _))))
      58 7 true (by decide)
  have h4 : Reachable (idle 59 Kind.circle 7 true 75) :=
    reach_round (reach_waiting h3 halfDraw zeroDraw 14 Kind.circle
      (spawn_idle_shapes levelSettings[7] rfl (spawnType_halfDraw (List.getElem_mem _))))
      59 7 true (by decide)
  exact h4

/-! ## Scoring rules of a tap -/

theorem reach_goldenAtLast : Reachable goldenAtLast :=
  reach_waiting reach_last_55 zeroDraw zeroDraw 11 Kind.golden
    (spawn_idle_shapes levelSettings[7] rfl
      (spawnType_zeroDraw zeroDraw (List.getElem_mem _)))

theorem reach_circleAtLast : Reachable circleAtLast :=
  reach_waiting reach_last_59 halfDraw zeroDraw 15 Kind.circle
    (spawn_idle_shapes levelSettings[7] rfl (spawnType_halfDraw (List.getElem_mem _)))

/-- The score after a tap on a valid level: `newScore`, or zero on a wrap. -/
theorem tap_score_eq {s : GameState} {lvl : LevelConfig}
    (hl : levelSettings[s.currentLevel]? = some lvl) (id : Int) (type : Kind) (left : ℚ)
    (top : Int) (b : BurstDraws) :
    ∃ s', handleShapeTap s id type left top b = some s' ∧
      s'.score = (if s.currentLevel + 1 < levelSettings.length ∨
        newScore s type < lvl.targetScore then newScore s type else 0) := by
  obtain ⟨s', ht⟩ := tap_total s id type left top b (level_lookup_lt hl)
  obtain ⟨_, _, _, _, _, hstay, hup, hwrap⟩ := tap_spec hl ht
  refine ⟨s', ht, ?_⟩
  by_cases hlt : newScore s type < lvl.targetScore
  · rw [if_pos (Or.inr hlt)]
    exact (hstay hlt).1
  · by_cases hn : s.currentLevel + 1 < levelSettings.length
    · rw [if_pos (Or.inl hn)]
      exact (hup (not_lt.mp hlt) hn).1
    · rw [if_neg (by tauto)]
      exact (hwrap (not_lt.mp hlt) hn).1

/-- The score after a tap, given the invariant. -/
theorem tap_score_of_inv {s : GameState} (hi : Inv s) (id : Int) (type : Kind) (left : ℚ)
    (top : Int) (b : BurstDraws) :
    ∃ lvl s', levelSettings[s.currentLevel]? = some lvl ∧
      handleShapeTap s id type left top b = some s' ∧
      s'.score = (if s.currentLevel + 1 < levelSettings.length ∨
        newScore s type < lvl.targetScore then newScore s type else 0) := by
  obtain ⟨lvl, hl, _, _, _⟩ := hi
  obtain ⟨s', ht, hs⟩ := tap_score_eq hl id type left top b
  exact ⟨lvl, s', hl, ht, hs⟩

/-- The level index after a tap: only the row of the current level is
compared with `newScore`. -/
theorem tap_level_eq {s s' : GameState} {id : Int} {type : Kind} {left : ℚ} {top : Int}
    {b : BurstDraws} {lvl : LevelConfig}
    (hl : levelSettings[s.currentLevel]? = some lvl)
    (ht : handleShapeTap s id type left top b = some s') :
    s'.currentLevel = (if newScore s type < lvl.targetScore then s.currentLevel
      else if s.currentLevel + 1 < levelSettings.length then s.currentLevel + 1 else 0) := by
  obtain ⟨_, _, _, _, _, hstay, hup, hwrap⟩ := tap_spec hl ht
  by_cases hlt : newScore s type < lvl.targetScore
  · rw [if_pos hlt]
    exact (hstay hlt).2.1
  · rw [if_neg hlt]
    by_cases hn : s.currentLevel + 1 < levelSettings.length
    · rw [if_pos hn]
      exact (hup (not_lt.mp hlt) hn).2.1
    · rw [if_neg hn]
      exact (hwrap (not_lt.mp hlt) hn).2.1

/-- A tap keeps the level index inside the table. -/
theorem tap_level_valid {s s' : GameState} {id : Int} {type : Kind} {left : ℚ} {top : Int}
    {b : BurstDraws} (ht : handleShapeTap s id type left top b = some s') :
    s'.currentLevel < levelSettings.length := by
  obtain ⟨lvl, hl⟩ := tap_some_level ht
  have h := tap_level_eq hl ht
  have hlt := level_lookup_lt hl
  rw [h]
  split_ifs
  · exact hlt
  · assumption
  · decide

/-- A burst adds five particles. -/
theorem createParticles_length (s : GameState) (x : ℚ) (y : Int) (color : String)
    (b : BurstDraws) :
    (createParticles s x y color b).particles.length = s.particles.length + 5 := by
  simp [createParticles]

/-- A tap that does not raise the score changes neither the level nor the
banner, given the invariant. -/
theorem tap_penalty_of_inv {s : GameState} (hi : Inv s) (id : Int) (type : Kind) (left : ℚ)
    (top : Int) (b : BurstDraws) (hle : newScore s type ≤ s.score) :
    ∃ s', handleShapeTap s id type left top b = some s' ∧
      s'.score = newScore s type ∧ s'.currentLevel = s.currentLevel ∧
      s'.levelUp = s.levelUp := by
  obtain ⟨lvl, hl, _, hlt, _⟩ := hi
  obtain ⟨s', ht⟩ := tap_total s id type left top b (level_lookup_lt hl)
  obtain ⟨_, _, _, _, _, hstay, _, _⟩ := tap_spec hl ht
  exact ⟨s', ht, hstay (lt_of_le_of_lt hle hlt)⟩

/-- C1, as the code has it: in every reachable state a tap on a golden shape
returns a state whose score is the previous score plus 5, whatever the target
is, except when the current level is the last row of `levelSettings` and the
previous score plus 5 reaches that row's `targetScore`: then the score is 0. -/
theorem golden_tap_score (s : GameState) (hr : Reachable s) (id : Int) (left : ℚ) (top : Int)
    (b : BurstDraws) :
    ∃ lvl s', levelSettings[s.currentLevel]? = some lvl ∧
      handleShapeTap s id Kind.golden left top b = some s' ∧
      s'.score = (if s.currentLevel + 1 < levelSettings.length ∨
        s.score + 5 < lvl.targetScore then s.score + 5 else 0) := by
  have h := tap_score_of_inv (inv_reachable hr) id Kind.golden left top b
  rw [newScore_golden] at h
  exact h

/-- Witness of `golden_tap_score` at the initial state. -/
theorem golden_tap_score_witness :
    Reachable initialState ∧
    ∃ lvl s', levelSettings[initialState.currentLevel]? = some lvl ∧
      handleShapeTap initialState 0 Kind.golden 0 (-60) flatBurst = some s' ∧
      s'.score = (if initialState.currentLevel + 1 < levelSettings.length ∨
        initialState.score + 5 < lvl.targetScore then initialState.score + 5 else 0) :=
  ⟨Reachable.init, golden_tap_score initialState Reachable.init 0 0 (-60) flatBurst⟩

/-- C1 fails as stated: `goldenAtLast` is reachable, its golden shape is on
screen, and tapping it leaves the score at 0, not at 55 + 5. -/
theorem golden_tap_wraps :
    Reachable goldenAtLast ∧
    (⟨11, Kind.golden, 0, -60⟩ : Shape) ∈ goldenAtLast.shapes ∧
    goldenAtLast.score = 55 ∧
    (handleShapeTap goldenAtLast 11 Kind.golden 0 (-60) flatBurst).map (fun s => s.score)
      = some 0 ∧
    (handleShapeTap goldenAtLast 11 Kind.golden 0 (-60) flatBurst).map (fun s => s.score)
      ≠ some (goldenAtLast.score + 5) :=
  ⟨reach_goldenAtLast, by simp [goldenAtLast], rfl, by decide, by decide⟩

/-- C2, as the code has it: in every reachable state a tap on a shape whose kind
is the current `targetShape` returns a state whose score is the previous score
plus 1, except when the current level is the last row of `levelSettings` and the
previous score plus 1 reaches that row's `targetScore`: then the score is 0. -/
theorem target_tap_score (s : GameState) (hr : Reachable s) (id : Int) (type : Kind)
    (left : ℚ) (top : Int) (b : BurstDraws) (hk : type = s.targetShape) :
    ∃ lvl s', levelSettings[s.currentLevel]? = some lvl ∧
      handleShapeTap s id type left top b = some s' ∧
      s'.score = (if s.currentLevel + 1 < levelSettings.length ∨
        s.score + 1 < lvl.targetScore then s.score + 1 else 0) := by
  have hi := inv_reachable hr
  have h := tap_score_of_inv hi id type left top b
  obtain ⟨_, _, _, _, hts⟩ := inv_reachable hr
  rw [hk, newScore_target s hts] at h
  rw [hk]
  exact h

/-- Witness of `target_tap_score` at the initial state, whose target is the
circle. -/
theorem target_tap_score_witness :
    Reachable initialState ∧ Kind.circle = initialState.targetShape ∧
    ∃ lvl s', levelSettings[initialState.currentLevel]? = some lvl ∧
      handleShapeTap initialState 0 Kind.circle 0 (-60) flatBurst = some s' ∧
      s'.score = (if initialState.currentLevel + 1 < levelSettings.length ∨
        initialState.score + 1 < lvl.targetScore then initialState.score + 1 else 0) :=
  ⟨Reachable.init, rfl,
    target_tap_score initialState Reachable.init 0 Kind.circle 0 (-60) flatBurst rfl⟩

/-- C2 fails as stated: `circleAtLast` is reachable, its circle is on screen and
is the target, and tapping it leaves the score at 0, not at 59 + 1. -/
theorem target_tap_wraps :
    Reachable circleAtLast ∧
    (⟨15, Kind.circle, 0, -60⟩ : Shape) ∈ circleAtLast.shapes ∧
    circleAtLast.targetShape = Kind.circle ∧
    circleAtLast.score = 59 ∧
    (handleShapeTap circleAtLast 15 Kind.circle 0 (-60) flatBurst).map (fun s => s.score)
      = some 0 ∧
    (handleShapeTap circleAtLast 15 Kind.circle 0 (-60) flatBurst).map (fun s => s.score)
      ≠ some (circleAtLast.score + 1) :=
  ⟨reach_circleAtLast, by simp [circleAtLast], rfl, rfl, by decide, by decide⟩

/-- C3: in every reachable state with score `s`, a tap on a bomb returns a state
with score `max 0 (s - 5)`, the same level index and the same banner flag: no
level transition and no reset of the score happens in that tap. -/
theorem bomb_tap_score (s : GameState) (hr : Reachable s) (id : Int) (left : ℚ) (top : Int)
    (b : BurstDraws) :
    ∃ s', handleShapeTap s id Kind.bomb left top b = some s' ∧
      s'.score = max 0 (s.score - 5) ∧ s'.currentLevel = s.currentLevel ∧
      s'.levelUp = s.levelUp := by
  have hi := inv_reachable hr
  obtain ⟨_, _, h0, _, hts⟩ := inv_reachable hr
  have hb := newScore_bomb s hts
  have h := tap_penalty_of_inv hi id Kind.bomb left top b (by rw [hb]; omega)
  rw [hb] at h
  exact h

/-- Witness of `bomb_tap_score` on the last level with score 55. -/
theorem bomb_tap_score_witness :
    Reachable goldenAtLast ∧
    ∃ s', handleShapeTap goldenAtLast 3 Kind.bomb 0 0 flatBurst = some s' ∧
      s'.score = max 0 (goldenAtLast.score - 5) ∧
      s'.currentLevel = goldenAtLast.currentLevel ∧ s'.levelUp = goldenAtLast.levelUp :=
  ⟨reach_goldenAtLast, bomb_tap_score goldenAtLast reach_goldenAtLast 3 0 0 flatBurst⟩

/-- C4: in every reachable state with score `s`, a tap on a circle, square or
triangle whose kind differs from the current `targetShape` returns a state with
score `max 0 (s - 1)`. -/
theorem wrong_tap_score (s : GameState) (hr : Reachable s) (id : Int) (type : Kind)
    (left : ℚ) (top : Int) (b : BurstDraws) (hp : type ∈ shapesList)
    (hne : type ≠ s.targetShape) :
    ∃ s', handleShapeTap s id type left top b = some s' ∧
      s'.score = max 0 (s.score - 1) := by
  have hi := inv_reachable hr
  obtain ⟨_, _, h0, _, _⟩ := inv_reachable hr
  have hw := newScore_wrong s type hp hne
  obtain ⟨s', ht, hsc, _, _⟩ :=
    tap_penalty_of_inv hi id type left top b (by rw [hw]; omega)
  exact ⟨s', ht, by rw [hsc, hw]⟩

/-- Witness of `wrong_tap_score`: a square tapped while the target is the
circle, on the last level with score 59. -/
theorem wrong_tap_score_witness :
    Reachable circleAtLast ∧ Kind.square ∈ shapesList ∧
    Kind.square ≠ circleAtLast.targetShape ∧
    ∃ s', handleShapeTap circleAtLast 4 Kind.square 0 0 flatBurst = some s' ∧
      s'.score = max 0 (circleAtLast.score - 1) :=
  ⟨reach_circleAtLast, by decide, by decide,
    wrong_tap_score circleAtLast reach_circleAtLast 4 Kind.square 0 0 flatBurst
      (by decide) (by decide)⟩

theorem reach_circleAtStart : Reachable circleAtStart := by
  have h0 : Reachable (idle 0 Kind.circle 0 false 0) := Reachable.init
  exact reach_waiting h0 halfDraw zeroDraw 1 Kind.circle
    (spawn_idle_shapes levelSettings[0] rfl (spawnType_halfDraw (List.getElem_mem _)))

/-! ## Level progression -/

/-- C6: on a level `i` that has a successor in `levelSettings`, with the score at
`targetScore i - 1` and a plain target, a tap on a shape of the target kind
returns a state on level `i + 1` whose score is `targetScore i`, not reset, and
whose level-up flag is set. -/
theorem level_advance (s : GameState) (lvl : LevelConfig) (id : Int) (type : Kind)
    (left : ℚ) (top : Int) (b : BurstDraws)
    (hl : levelSettings[s.currentLevel]? = some lvl)
    (hn : s.currentLevel + 1 < levelSettings.length)
    (hs : s.score = lvl.targetScore - 1)
    (hts : s.targetShape ∈ shapesList) (hk : type = s.targetShape) :
    ∃ s', handleShapeTap s id type left top b = some s' ∧
      s'.currentLevel = s.currentLevel + 1 ∧ s'.score = lvl.targetScore ∧
      s'.levelUp = true := by
  obtain ⟨s', ht⟩ := tap_total s id type left top b (level_lookup_lt hl)
  obtain ⟨_, _, _, _, _, _, hup, _⟩ := tap_spec hl ht
  have hns : newScore s type = lvl.targetScore := by
    rw [hk, newScore_target s hts, hs]
    ring
  obtain ⟨hsc, hlv, hflag⟩ := hup (le_of_eq hns.symm) hn
  exact ⟨s', ht, hlv, by rw [hsc, hns], hflag⟩

/-- Witness of `level_advance`: first level, score 4, a circle tapped while the
target is the circle. -/
theorem level_advance_witness :
    levelSettings[oneBelowTarget.currentLevel]? = some levelSettings[0] ∧
    oneBelowTarget.currentLevel + 1 < levelSettings.length ∧
    oneBelowTarget.score = (levelSettings[0]).targetScore - 1 ∧
    oneBelowTarget.targetShape ∈ shapesList ∧
    ∃ s', handleShapeTap oneBelowTarget 1 Kind.circle 0 0 flatBurst = some s' ∧
      s'.currentLevel = oneBelowTarget.currentLevel + 1 ∧
      s'.score = (levelSettings[0]).targetScore ∧ s'.levelUp = true :=
  ⟨rfl, by decide, by decide, by decide,
    level_advance oneBelowTarget levelSettings[0] 1 Kind.circle 0 0 flatBurst rfl
      (by decide) (by decide) (by decide) rfl⟩

/-- C7: on the last level every tap whose `newScore` reaches the level's
`targetScore` returns a state with score 0, level index 0 and the level-up flag
set; and play never stops: in every reachable state a spawn, a tick, a target
rotation and a tap on any shape on screen each return a state, which is
reachable again. -/
theorem wrap_around :
    (∀ (s : GameState) (lvl : LevelConfig) (id : Int) (type : Kind) (left : ℚ) (top : Int)
        (b : BurstDraws),
      s.currentLevel + 1 = levelSettings.length →
      levelSettings[s.currentLevel]? = some lvl →
      lvl.targetScore ≤ newScore s type →
      ∃ s', handleShapeTap s id type left top b = some s' ∧
        s'.score = 0 ∧ s'.currentLevel = 0 ∧ s'.levelUp = true) ∧
    (∀ s : GameState, Reachable s →
      (∀ (rand pick pos : Draw) (now innerWidth : Int),
        ∃ s', spawnShape s rand pick pos now innerWidth = some s' ∧ Reachable s') ∧
      (∀ innerHeight : Int, ∃ s', animateShapes s innerHeight = some s' ∧ Reachable s') ∧
      (∀ r : Draw, ∃ s', rotateTarget s r = some s' ∧ Reachable s') ∧
      (∀ sh ∈ s.shapes, ∀ b : BurstDraws,
        ∃ s', handleShapeTap s sh.id sh.type sh.left sh.top b = some s' ∧
          Reachable s')) := by
  constructor
  · intro s lvl id type left top b hlast hl hge
    obtain ⟨s', ht⟩ := tap_total s id type left top b (level_lookup_lt hl)
    obtain ⟨_, _, _, _, _, _, _, hwrap⟩ := tap_spec hl ht
    exact ⟨s', ht, hwrap hge (by omega)⟩
  · intro s hr
    obtain ⟨lvl, hl, _⟩ := inv_reachable hr
    have hlt := level_lookup_lt hl
    refine ⟨?_, ?_, ?_, ?_⟩
    · intro rand pick pos now innerWidth
      obtain ⟨s', h⟩ := spawn_total s rand pick pos now innerWidth hlt
      exact ⟨s', h, Reachable.step hr (Step.spawn rand pick pos now innerWidth h)⟩
    · intro innerHeight
      exact ⟨_, tick_eq s innerHeight lvl hl,
        Reachable.step hr (Step.tick innerHeight (tick_eq s innerHeight lvl hl))⟩
    · intro r
      obtain ⟨s', h⟩ := rotate_total s r
      exact ⟨s', h, Reachable.step hr (Step.rotate r h)⟩
    · intro sh hsh b
      obtain ⟨s', h⟩ := tap_total s sh.id sh.type sh.left sh.top b hlt
      exact ⟨s', h, Reachable.step hr (Step.tap sh b hsh h)⟩

/-- Witness of `wrap_around`: the golden shape of `goldenAtLast` is tapped on the
last level with score 55, and the state after the wrap is reachable. -/
theorem wrap_around_witness :
    goldenAtLast.currentLevel + 1 = levelSettings.length ∧
    levelSettings[goldenAtLast.currentLevel]? = some levelSettings[7] ∧
    (levelSettings[7]).targetScore ≤ newScore goldenAtLast Kind.golden ∧
    (∃ s', handleShapeTap goldenAtLast 11 Kind.golden 0 (-60) flatBurst = some s' ∧
      s'.score = 0 ∧ s'.currentLevel = 0 ∧ s'.levelUp = true) ∧
    Reachable goldenAtLast ∧
    (∃ s', handleShapeTap goldenAtLast 11 Kind.golden 0 (-60) flatBurst = some s' ∧
      Reachable s') :=
  ⟨rfl, rfl, by decide,
    wrap_around.1 goldenAtLast levelSettings[7] 11 Kind.golden 0 (-60) flatBurst rfl rfl
      (by decide),
    reach_goldenAtLast,
    (wrap_around.2 goldenAtLast reach_goldenAtLast).2.2.2 ⟨11, Kind.golden, 0, -60⟩
      (by simp [goldenAtLast]) flatBurst⟩

/-- C8: on a valid level index `i`, whatever the score, one tap returns a state
whose level index is `i` when `newScore` is below `targetScore i`, else `i + 1`
when that is a valid index, else 0; so the index becomes `i`, `i + 1` or, only
from the last index, 0, and never moves by more than one level. -/
theorem no_cascade (s : GameState) (lvl : LevelConfig) (id : Int) (type : Kind) (left : ℚ)
    (top : Int) (b : BurstDraws) (hl : levelSettings[s.currentLevel]? = some lvl) :
    ∃ s', handleShapeTap s id type left top b = some s' ∧
      s'.currentLevel = (if newScore s type < lvl.targetScore then s.currentLevel
        else if s.currentLevel + 1 < levelSettings.length then s.currentLevel + 1 else 0) ∧
      (s'.currentLevel = s.currentLevel ∨
        (s'.currentLevel = s.currentLevel + 1 ∧ s.currentLevel + 1 < levelSettings.length) ∨
        (s'.currentLevel = 0 ∧ s.currentLevel + 1 = levelSettings.length)) := by
  obtain ⟨s', ht⟩ := tap_total s id type left top b (level_lookup_lt hl)
  have h := tap_level_eq hl ht
  have hlt := level_lookup_lt hl
  refine ⟨s', ht, h, ?_⟩
  rw [h]
  split_ifs with h1 h2
  · exact Or.inl rfl
  · exact Or.inr (Or.inl ⟨rfl, h2⟩)
  · exact Or.inr (Or.inr ⟨rfl, by omega⟩)

/-- Witness of `no_cascade`: a golden tap on the first level with score 100,
above the target of every level. -/
theorem no_cascade_witness :
    levelSettings[farAbove.currentLevel]? = some levelSettings[0] ∧
    ∃ s', handleShapeTap farAbove 1 Kind.golden 0 0 flatBurst = some s' ∧
      s'.currentLevel = (if newScore farAbove Kind.golden < (levelSettings[0]).targetScore
        then farAbove.currentLevel
        else if farAbove.currentLevel + 1 < levelSettings.length
          then farAbove.currentLevel + 1 else 0) ∧
      (s'.currentLevel = farAbove.currentLevel ∨
        (s'.currentLevel = farAbove.currentLevel + 1 ∧
          farAbove.currentLevel + 1 < levelSettings.length) ∨
        (s'.currentLevel = 0 ∧ farAbove.currentLevel + 1 = levelSettings.length)) :=
  ⟨rfl, no_cascade farAbove levelSettings[0] 1 Kind.golden 0 0 flatBurst rfl⟩

/-! ## Invariants of the score and of the level index -/

/-- A tap never makes a non-negative score negative, whatever its arguments. -/
theorem tap_score_nonneg {s s' : GameState} {id : Int} {type : Kind} {left : ℚ} {top : Int}
    {b : BurstDraws} (h0 : 0 ≤ s.score)
    (ht : handleShapeTap s id type left top b = some s') : 0 ≤ s'.score := by
  obtain ⟨lvl, hl⟩ := tap_some_level ht
  obtain ⟨s'', ht', hsc⟩ := tap_score_eq hl id type left top b
  rw [ht] at ht'
  cases ht'
  rw [hsc]
  have := newScore_nonneg s type h0
  split_ifs
  · exact this
  · exact le_refl 0

/-- C9: the score is never negative. It is 0 in the initial state; a spawn, a
tick, a target rotation, the banner timeout, the sound listener and a tap with
any arguments, of any kind, each take a state with `score >= 0` to a state with
`score >= 0`; hence `score >= 0` in every reachable state. -/
theorem score_nonneg :
    0 ≤ initialState.score ∧
    (∀ s s' : GameState, 0 ≤ s.score → Step s s' → 0 ≤ s'.score) ∧
    (∀ (s s' : GameState) (id : Int) (type : Kind) (left : ℚ) (top : Int) (b : BurstDraws),
      0 ≤ s.score → handleShapeTap s id type left top b = some s' → 0 ≤ s'.score) ∧
    (∀ s : GameState, 0 ≤ s.score → 0 ≤ (clearLevelUp s).score ∧ 0 ≤ (enableSound s).score) ∧
    (∀ s : GameState, Reachable s → 0 ≤ s.score) := by
  have hstep : ∀ s s' : GameState, 0 ≤ s.score → Step s s' → 0 ≤ s'.score := by
    intro s s' h0 hs
    cases hs with
    | spawn rand pick pos now innerWidth h =>
      obtain ⟨k, rfl⟩ := spawn_spec h
      exact h0
    | rotate r h =>
      obtain ⟨k, _, rfl⟩ := rotate_spec h
      exact h0
    | tick innerHeight h =>
      obtain ⟨moved, rfl⟩ := tick_spec h
      exact h0
    | tap sh b _ h => exact tap_score_nonneg h0 h
    | banner => exact h0
    | sound => exact h0
  refine ⟨le_refl 0, hstep, ?_, ?_, ?_⟩
  · intro s s' id type left top b h0 ht
    exact tap_score_nonneg h0 ht
  · intro s h0
    exact ⟨h0, h0⟩
  · intro s hr
    induction hr with
    | init => exact le_refl 0
    | step _ hs ih => exact hstep _ _ ih hs

/-- Witness of `score_nonneg`: a bomb tapped at score 4 gives score 0, and the
reachable state `circleAtLast` has a non-negative score. -/
theorem score_nonneg_witness :
    0 ≤ oneBelowTarget.score ∧
    handleShapeTap oneBelowTarget 1 Kind.bomb 0 0 flatBurst =
      some (createParticles { oneBelowTarget with score := 0 } 0 0 (shapeColors Kind.bomb) flatBurst) ∧
    0 ≤ (createParticles { oneBelowTarget with score := 0 } 0 0 (shapeColors Kind.bomb) flatBurst).score ∧
    Reachable circleAtLast ∧ 0 ≤ circleAtLast.score :=
  ⟨by decide, by simp [handleShapeTap, newScore, oneBelowTarget, levelSettings, shapeColors],
    score_nonneg.2.2.1 oneBelowTarget _ 1 Kind.bomb 0 0 flatBurst (by decide)
      (by simp [handleShapeTap, newScore, oneBelowTarget, levelSettings, shapeColors]),
    reach_circleAtLast, score_nonneg.2.2.2.2 circleAtLast reach_circleAtLast⟩

/-- C10: the level index always indexes `levelSettings`. It does in the initial
state; every handler run, and a tap with any arguments, takes a state with a
valid index to a state with a valid index; hence in every reachable state the
index is below `levelSettings.length`, the lookup `levelSettings[currentLevel]`
is defined, and `spawnShape`, `animateShapes` and `handleShapeTap` return a
state instead of failing on the lookup. -/
theorem level_index_valid :
    initialState.currentLevel < levelSettings.length ∧
    (∀ s s' : GameState, s.currentLevel < levelSettings.length → Step s s' →
      s'.currentLevel < levelSettings.length) ∧
    (∀ (s s' : GameState) (id : Int) (type : Kind) (left : ℚ) (top : Int) (b : BurstDraws),
      handleShapeTap s id type left top b = some s' →
      s'.currentLevel < levelSettings.length) ∧
    (∀ s : GameState, Reachable s →
      s.currentLevel < levelSettings.length ∧
      (∃ lvl, levelSettings[s.currentLevel]? = some lvl) ∧
      (∀ (rand pick pos : Draw) (now innerWidth : Int),
        ∃ s', spawnShape s rand pick pos now innerWidth = some s') ∧
      (∀ innerHeight : Int, ∃ s', animateShapes s innerHeight = some s') ∧
      (∀ (id : Int) (type : Kind) (left : ℚ) (top : Int) (b : BurstDraws),
        ∃ s', handleShapeTap s id type left top b = some s')) := by
  have hstep : ∀ s s' : GameState, s.currentLevel < levelSettings.length → Step s s' →
      s'.currentLevel < levelSettings.length := by
    intro s s' h0 hs
    cases hs with
    | spawn rand pick pos now innerWidth h =>
      obtain ⟨k, rfl⟩ := spawn_spec h
      exact h0
    | rotate r h =>
      obtain ⟨k, _, rfl⟩ := rotate_spec h
      exact h0
    | tick innerHeight h =>
      obtain ⟨moved, rfl⟩ := tick_spec h
      exact h0
    | tap sh b _ h => exact tap_level_valid h
    | banner => exact h0
    | sound => exact h0
  have hreach : ∀ s : GameState, Reachable s → s.currentLevel < levelSettings.length := by
    intro s hr
    induction hr with
    | init => decide
    | step _ hs ih => exact hstep _ _ ih hs
  refine ⟨by decide, hstep, ?_, ?_⟩
  · intro s s' id type left top b ht
    exact tap_level_valid ht
  · intro s hr
    have hlt := hreach s hr
    obtain ⟨lvl, hl⟩ := level_lookup hlt
    refine ⟨hlt, ⟨lvl, hl⟩, ?_, ?_, ?_⟩
    · intro rand pick pos now innerWidth
      exact spawn_total s rand pick pos now innerWidth hlt
    · intro innerHeight
      exact ⟨_, tick_eq s innerHeight lvl hl⟩
    · intro id type left top b
      exact tap_total s id type left top b hlt

/-- Witness of `level_index_valid` at the reachable state `goldenAtLast`, on the
last level. -/
theorem level_index_valid_witness :
    Reachable goldenAtLast ∧
    goldenAtLast.currentLevel < levelSettings.length ∧
    (∃ lvl, levelSettings[goldenAtLast.currentLevel]? = some lvl) ∧
    (∃ s', handleShapeTap goldenAtLast 11 Kind.golden 0 (-60) flatBurst = some s') :=
  ⟨reach_goldenAtLast,
    (level_index_valid.2.2.2 goldenAtLast reach_goldenAtLast).1,
    (level_index_valid.2.2.2 goldenAtLast reach_goldenAtLast).2.1,
    (level_index_valid.2.2.2 goldenAtLast reach_goldenAtLast).2.2.2.2 11 Kind.golden 0 (-60)
      flatBurst⟩

/-! ## The list of shapes -/

theorem sliceLast_length (n : Nat) (xs : List α) :
    (sliceLast n xs).length = min n xs.length := by
  unfold sliceLast
  rw [List.length_drop]
  omega

/-- The last thirty of `prev` followed by `e` are the last twenty-nine of `prev`
and then `e`. -/
theorem sliceLast_concat (prev : List α) (e : α) :
    sliceLast 30 (prev ++ [e]) = prev.drop (prev.length - 29) ++ [e] := by
  unfold sliceLast
  have h : (prev ++ [e]).length - 30 = prev.length - 29 := by
    rw [List.length_append, List.length_singleton]
    omega
  rw [h, List.drop_append_of_le_length (by omega)]

/-- The shapes after a spawn on a valid level. -/
theorem spawn_eq {s : GameState} {lvl : LevelConfig} (rand pick pos : Draw)
    (now innerWidth : Int) (hl : levelSettings[s.currentLevel]? = some lvl) :
    ∃ k, spawnType lvl rand pick = some k ∧
      spawnShape s rand pick pos now innerWidth = some { s with
        shapes := sliceLast 30 (s.shapes ++ [⟨now, k, toDouble (pos.val * (innerWidth - 60)), -60⟩]) } := by
  obtain ⟨k, hk⟩ := spawnType_total lvl rand pick
  refine ⟨k, hk, ?_⟩
  unfold spawnShape
  simp only [hl, hk]

/-- A tick never lengthens the list of shapes. -/
theorem tick_shapes_length {s s' : GameState} {innerHeight : Int}
    (h : animateShapes s innerHeight = some s') : s'.shapes.length ≤ s.shapes.length := by
  cases hl : levelSettings[s.currentLevel]? with
  | some lvl =>
    rw [tick_eq s innerHeight lvl hl] at h
    cases h
    exact le_trans (List.length_filter_le _ _) (le_of_eq (List.length_map _ _))
  | none =>
    cases hs : s.shapes with
    | nil =>
      rw [tick_idle s innerHeight hs] at h
      cases h
      simp [hs]
    | cons x xs =>
      unfold animateShapes at h
      rw [← List.mapM'_eq_mapM, hs, hl] at h
      simp [List.mapM'] at h

/-- C11: the list of shapes holds at most 30 entries. On a valid level a spawn
returns a list of `min 30 (n + 1)` shapes whatever the length `n` of the prior
list; a tick and a tap never lengthen the list; hence every reachable state has
at most 30 shapes. -/
theorem shapes_bound :
    (∀ (s : GameState) (rand pick pos : Draw) (now innerWidth : Int),
      s.currentLevel < levelSettings.length →
      ∃ s', spawnShape s rand pick pos now innerWidth = some s' ∧
        s'.shapes.length = min 30 (s.shapes.length + 1) ∧ s'.shapes.length ≤ 30) ∧
    (∀ (s s' : GameState) (innerHeight : Int),
      animateShapes s innerHeight = some s' → s'.shapes.length ≤ s.shapes.length) ∧
    (∀ (s s' : GameState) (id : Int) (type : Kind) (left : ℚ) (top : Int) (b : BurstDraws),
      handleShapeTap s id type left top b = some s' →
      s'.shapes.length ≤ s.shapes.length) ∧
    (∀ s : GameState, Reachable s → s.shapes.length ≤ 30) := by
  have htap : ∀ (s s' : GameState) (id : Int) (type : Kind) (left : ℚ) (top : Int)
      (b : BurstDraws), handleShapeTap s id type left top b = some s' →
      s'.shapes.length ≤ s.shapes.length := by
    intro s s' id type left top b ht
    obtain ⟨lvl, hl⟩ := tap_some_level ht
    obtain ⟨hsh, _⟩ := tap_spec hl ht
    rw [hsh]
    exact List.length_filter_le _ _
  refine ⟨?_, fun s s' h ht => tick_shapes_length ht, htap, ?_⟩
  · intro s rand pick pos now innerWidth hlt
    obtain ⟨lvl, hl⟩ := level_lookup hlt
    obtain ⟨k, _, hs⟩ := spawn_eq rand pick pos now innerWidth hl
    refine ⟨_, hs, ?_, ?_⟩
    · simp [sliceLast_length]
    · simp [sliceLast_length]
  · intro s hr
    induction hr with
    | init => simp [initialState]
    | step _ hs ih =>
      cases hs with
      | spawn rand pick pos now innerWidth h =>
        obtain ⟨k, rfl⟩ := spawn_spec h
        simp [sliceLast_length]
      | rotate r h =>
        obtain ⟨k, _, rfl⟩ := rotate_spec h
        exact ih
      | tick innerHeight h => exact le_trans (tick_shapes_length h) ih
      | tap sh b _ h => exact le_trans (htap _ _ _ _ _ _ _ h) ih
      | banner => exact ih
      | sound => exact ih

/-- Witness of `shapes_bound`: a spawn in `twoShapes` gives three shapes, and the
reachable state `goldenAtLast` has at most 30. -/
theorem shapes_bound_witness :
    twoShapes.currentLevel < levelSettings.length ∧
    (∃ s', spawnShape twoShapes zeroDraw zeroDraw zeroDraw 3 800 = some s' ∧
      s'.shapes.length = min 30 (twoShapes.shapes.length + 1) ∧ s'.shapes.length ≤ 30) ∧
    Reachable goldenAtLast ∧ goldenAtLast.shapes.length ≤ 30 :=
  ⟨by decide, shapes_bound.1 twoShapes zeroDraw zeroDraw zeroDraw 3 800 (by decide),
    reach_goldenAtLast, shapes_bound.2.2.2 goldenAtLast reach_goldenAtLast⟩

/-- C19: on a valid level `spawnShape` returns the last 30 entries of the prior
list followed by the new shape `e`, that is the last 29 entries of the prior
list and then `e`. So `e` is the last entry and has `top = -60`; a prior list
of fewer than 30 shapes is kept whole; a prior list of 30 or more loses entries
at the front only and the result has exactly 30 entries in their old order. -/
theorem spawn_evicts_oldest (s : GameState) (lvl : LevelConfig) (rand pick pos : Draw)
    (now innerWidth : Int) (hl : levelSettings[s.currentLevel]? = some lvl) :
    ∃ s' e, spawnShape s rand pick pos now innerWidth = some s' ∧
      e.id = now ∧ spawnType lvl rand pick = some e.type ∧
      e.left = toDouble (pos.val * (innerWidth - 60)) ∧ e.top = -60 ∧
      s'.shapes = sliceLast 30 (s.shapes ++ [e]) ∧
      s'.shapes = s.shapes.drop (s.shapes.length - 29) ++ [e] ∧
      s'.shapes.getLast? = some e ∧
      (s.shapes.length < 30 → s'.shapes = s.shapes ++ [e]) ∧
      (30 ≤ s.shapes.length → s'.shapes.length = 30) := by
  obtain ⟨k, hk, hs⟩ := spawn_eq rand pick pos now innerWidth hl
  refine ⟨_, ⟨now, k, toDouble (pos.val * (innerWidth - 60)), -60⟩, hs, rfl, hk, rfl, rfl, rfl,
    sliceLast_concat _ _, ?_, ?_, ?_⟩
  · show (sliceLast 30 (s.shapes ++ [_])).getLast? = _
    rw [sliceLast_concat, List.getLast?_concat]
  · intro hlt
    show sliceLast 30 (s.shapes ++ [_]) = _
    rw [sliceLast_concat]
    have h0 : s.shapes.length - 29 = 0 := by omega
    rw [h0, List.drop_zero]
  · intro hge
    show (sliceLast 30 (s.shapes ++ [_])).length = 30
    rw [sliceLast_length, List.length_append, List.length_singleton]
    omega

/-- Witness of `spawn_evicts_oldest`: a golden shape spawns in `fullScreen`,
which holds thirty shapes. -/
theorem spawn_evicts_oldest_witness :
    levelSettings[fullScreen.currentLevel]? = some levelSettings[0] ∧
    ∃ s' e, spawnShape fullScreen zeroDraw zeroDraw zeroDraw 30 800 = some s' ∧
      e.id = 30 ∧ spawnType levelSettings[0] zeroDraw zeroDraw = some e.type ∧
      e.left = toDouble (zeroDraw.val * ((800 : Int) - 60)) ∧ e.top = -60 ∧
      s'.shapes = sliceLast 30 (fullScreen.shapes ++ [e]) ∧
      s'.shapes = fullScreen.shapes.drop (fullScreen.shapes.length - 29) ++ [e] ∧
      s'.shapes.getLast? = some e ∧
      (fullScreen.shapes.length < 30 → s'.shapes = fullScreen.shapes ++ [e]) ∧
      (30 ≤ fullScreen.shapes.length → s'.shapes.length = 30) :=
  ⟨rfl, spawn_evicts_oldest fullScreen levelSettings[0] zeroDraw zeroDraw zeroDraw 30 800 rfl⟩

/-- C16: on a valid level index, for every list of shapes and every viewport
height `h`, one tick returns exactly the shapes `e` of the input with
`e.top + speed < h`, in their order, each with `top` raised by the `speed` of
the current level and `id`, `type`, `left` unchanged; the shapes whose raised
`top` is at least `h` are dropped. -/
theorem tick_shapes (s : GameState) (lvl : LevelConfig) (innerHeight : Int)
    (hl : levelSettings[s.currentLevel]? = some lvl) :
    ∃ s', animateShapes s innerHeight = some s' ∧
      s'.shapes = (s.shapes.filter fun e => e.top + lvl.speed < innerHeight).map
        (fun e => { id := e.id, type := e.type, left := e.left, top := e.top + lvl.speed }) ∧
      (∀ e ∈ s.shapes, innerHeight ≤ e.top + lvl.speed →
        (⟨e.id, e.type, e.left, e.top + lvl.speed⟩ : Shape) ∉ s'.shapes) := by
  refine ⟨_, tick_eq s innerHeight lvl hl, ?_, ?_⟩
  · show List.filter _ (List.map _ s.shapes) = _
    rw [List.filter_map]
    rfl
  · intro e _ hge hmem
    have h := (List.mem_filter.mp hmem).2
    simp only [decide_eq_true_eq] at h
    omega

/-- Witness of `tick_shapes`: in `twoShapes` with height 700 and speed 2 the
circle at 699 leaves and the bomb moves from -60 to -58. -/
theorem tick_shapes_witness :
    levelSettings[twoShapes.currentLevel]? = some levelSettings[0] ∧
    ∃ s', animateShapes twoShapes 700 = some s' ∧
      s'.shapes = (twoShapes.shapes.filter
          fun e => e.top + (levelSettings[0]).speed < 700).map
        (fun e => { id := e.id, type := e.type, left := e.left,
                    top := e.top + (levelSettings[0]).speed }) ∧
      (∀ e ∈ twoShapes.shapes, 700 ≤ e.top + (levelSettings[0]).speed →
        (⟨e.id, e.type, e.left, e.top + (levelSettings[0]).speed⟩ : Shape) ∉ s'.shapes) :=
  ⟨rfl, tick_shapes twoShapes levelSettings[0] 700 rfl⟩

/-- C17: a tap only removes. On a valid level index, for every list of shapes
and every tapped id, the list after `handleShapeTap` is the input list without
the shapes carrying that id: a sublist of the input, so the remaining shapes
keep their fields and their order, and a shape is in it exactly when it was in
the input and has another id. -/
theorem tap_only_removes (s : GameState) (id : Int) (type : Kind) (left : ℚ) (top : Int)
    (b : BurstDraws) (h : s.currentLevel < levelSettings.length) :
    ∃ s', handleShapeTap s id type left top b = some s' ∧
      s'.shapes = s.shapes.filter (fun e => e.id ≠ id) ∧
      List.Sublist s'.shapes s.shapes ∧
      (∀ e, e ∈ s'.shapes ↔ e ∈ s.shapes ∧ e.id ≠ id) := by
  obtain ⟨lvl, hl⟩ := level_lookup h
  obtain ⟨s', ht⟩ := tap_total s id type left top b h
  obtain ⟨hsh, _⟩ := tap_spec hl ht
  refine ⟨s', ht, hsh, ?_, ?_⟩
  · rw [hsh]
    exact List.filter_sublist _
  · intro e
    rw [hsh]
    simp

/-- Witness of `tap_only_removes`: the bomb of `twoShapes` is tapped. -/
theorem tap_only_removes_witness :
    twoShapes.currentLevel < levelSettings.length ∧
    ∃ s', handleShapeTap twoShapes 2 Kind.bomb 10 (-60) flatBurst = some s' ∧
      s'.shapes = twoShapes.shapes.filter (fun e => e.id ≠ 2) ∧
      List.Sublist s'.shapes twoShapes.shapes ∧
      (∀ e, e ∈ s'.shapes ↔ e ∈ twoShapes.shapes ∧ e.id ≠ 2) :=
  ⟨by decide, tap_only_removes twoShapes 2 Kind.bomb 10 (-60) flatBurst (by decide)⟩

/-! ## The level table -/

/-- C15: every row of `levelSettings` has `bombChance + goldenChance < 1`, both
chances in `[0, 1]`, `spawnInterval > 0` and `speed > 0`. -/
theorem levelSettings_valid (lvl : LevelConfig) (h : lvl ∈ levelSettings) :
    lvl.bombChance + lvl.goldenChance < 1 ∧
    0 ≤ lvl.bombChance ∧ lvl.bombChance ≤ 1 ∧
    0 ≤ lvl.goldenChance ∧ lvl.goldenChance ≤ 1 ∧
    0 < lvl.spawnInterval ∧ 0 < lvl.speed := by
  simp only [levelSettings, List.mem_cons, List.mem_singleton, List.not_mem_nil,
    or_false] at h
  rcases h with h | h | h | h | h | h | h | h <;> subst h <;> norm_num

/-- Witness of `levelSettings_valid` at the last row of the table. -/
theorem levelSettings_valid_witness :
    levelSettings[7] ∈ levelSettings ∧
    (levelSettings[7]).bombChance + (levelSettings[7]).goldenChance < 1 ∧
    0 ≤ (levelSettings[7]).bombChance ∧ (levelSettings[7]).bombChance ≤ 1 ∧
    0 ≤ (levelSettings[7]).goldenChance ∧ (levelSettings[7]).goldenChance ≤ 1 ∧
    0 < (levelSettings[7]).spawnInterval ∧ 0 < (levelSettings[7]).speed :=
  ⟨List.getElem_mem _, levelSettings_valid levelSettings[7] (List.getElem_mem _)⟩

/-! ## Classification of a spawn -/

theorem toDouble_004 : toDouble (4 / 100) = 5764607523034235 / 2 ^ 57 := by
  rw [toDouble_eq (e := -5) (by norm_num) (by norm_num) (by norm_num) (by norm_num)]
  rw [roundEven_eq_of_abs_lt (n := 5764607523034235) (by norm_num [abs_lt])]
  norm_num

theorem toDouble_005 : toDouble (5 / 100) = 3602879701896397 / 2 ^ 56 := by
  rw [toDouble_eq (e := -5) (by norm_num) (by norm_num) (by norm_num) (by norm_num)]
  rw [roundEven_eq_of_abs_lt (n := 7205759403792794) (by norm_num [abs_lt])]
  norm_num

theorem toDouble_007 : toDouble (7 / 100) = 1261007895663739 / 2 ^ 54 := by
  rw [toDouble_eq (e := -4) (by norm_num) (by norm_num) (by norm_num) (by norm_num)]
  rw [roundEven_eq_of_abs_lt (n := 5044031582654956) (by norm_num [abs_lt])]
  norm_num

theorem toDouble_008 : toDouble (8 / 100) = 5764607523034235 / 2 ^ 56 := by
  rw [toDouble_eq (e := -4) (by norm_num) (by norm_num) (by norm_num) (by norm_num)]
  rw [roundEven_eq_of_abs_lt (n := 5764607523034235) (by norm_num [abs_lt])]
  norm_num

theorem toDouble_015 : toDouble (15 / 100) = 5404319552844595 / 2 ^ 55 := by
  rw [toDouble_eq (e := -3) (by norm_num) (by norm_num) (by norm_num) (by norm_num)]
  rw [roundEven_eq_of_abs_lt (n := 5404319552844595) (by norm_num [abs_lt])]
  norm_num

/-- In doubles `0.05 + 0.05` is `0.1`, the double `3602879701896397 / 2 ^ 55`. -/
theorem toDouble_sum_first :
    toDouble (toDouble (5 / 100) + toDouble (5 / 100)) = 3602879701896397 / 2 ^ 55 := by
  rw [toDouble_005]
  have h := toDouble_of_grid 3602879701896397 (-55) (by norm_num) (by norm_num)
  norm_num at h ⊢
  exact h

/-- In doubles `0.08 + 0.15` is `0.22999999999999998`: the exact sum lies half way
between two doubles and goes to the even one, which is the lower. -/
theorem toDouble_sum_seventh :
    toDouble (toDouble (8 / 100) + toDouble (15 / 100)) = 517913957147607 / 2 ^ 51 := by
  rw [toDouble_008, toDouble_015]
  rw [toDouble_eq (e := -3) (by norm_num) (by norm_num) (by norm_num) (by norm_num)]
  rw [roundEven_tie (n := 8286623314361712) (by norm_num) (by norm_num)]
  norm_num

/-- The product `0.6666666666666666 * 3` rounds up to 2, so the pick is the
triangle. -/
theorem randomPlain_twoThirds : randomPlain drawTwoThirds = some Kind.triangle := by
  have h : toDouble (drawTwoThirds.val * 3) = 2 := by
    show toDouble (6004799503160661 / 2 ^ 53 * 3) = 2
    rw [toDouble_eq (e := 0) (by norm_num) (by norm_num) (by norm_num) (by norm_num)]
    rw [roundEven_tie_odd (n := 9007199254740991) (by norm_num) (by norm_num)]
    norm_num
  have hlen : ((shapesList.length : ℕ) : ℚ) = 3 := by simp [shapesList]
  unfold randomPlain
  rw [hlen, h]
  simp [shapesList]

/-- The golden threshold is not above the bomb threshold. -/
theorem le_toDouble_add {g b : ℚ} (hg : 0 ≤ g) (hb : 0 ≤ b) :
    toDouble g ≤ toDouble (toDouble g + toDouble b) := by
  have hG := toDouble_nonneg hg
  have hB := toDouble_nonneg hb
  rcases eq_or_lt_of_le hG with hz | hpos
  · rw [← hz]
    exact toDouble_nonneg (by linarith)
  · have hg' : 0 < g := by
      rcases eq_or_lt_of_le hg with h0 | h0
      · rw [← h0, toDouble_zero] at hpos
        exact absurd hpos (lt_irrefl 0)
      · exact h0
    obtain ⟨M, k, hM, hk, hgrid⟩ := toDouble_grid hg'
    have hx : 0 < toDouble g + toDouble b := by linarith
    have h := grid_le_toDouble hx M k hM hk (by rw [← hgrid]; linarith)
    rw [← hgrid] at h
    exact h

theorem spawnType_row7 : spawnType levelSettings[6] draw023 zeroDraw = some Kind.circle := by
  have hg : toDouble (levelSettings[6]).goldenChance = 5764607523034235 / 2 ^ 56 :=
    toDouble_008
  have hs : toDouble (toDouble (levelSettings[6]).goldenChance +
      toDouble (levelSettings[6]).bombChance) = 517913957147607 / 2 ^ 51 :=
    toDouble_sum_seventh
  have hv : draw023.val = 517913957147607 / 2 ^ 51 := rfl
  unfold spawnType
  rw [hs, hg, hv, if_neg (by norm_num), if_neg (by norm_num)]
  exact randomPlain_zero

/-- C12 fails as stated: on the seventh row (level 7, index 6), where
`goldenChance = 0.08` and `bombChance = 0.15`, the draw `0.22999999999999998`
satisfies `g <= r < g + b`, both for the decimals of the table and for their
doubles, and yet the shape is not a bomb: in the reachable state on that level
with score 35 `spawnShape` appends a circle, because the sum `0.08 + 0.15`
computed in doubles is `0.22999999999999998` itself. -/
theorem spawn_threshold_rounds_down :
    (levelSettings[6]).goldenChance = 8 / 100 ∧ (levelSettings[6]).bombChance = 15 / 100 ∧
    draw023.val = 517913957147607 / 2 ^ 51 ∧
    (levelSettings[6]).goldenChance ≤ draw023.val ∧
    draw023.val < (levelSettings[6]).goldenChance + (levelSettings[6]).bombChance ∧
    toDouble (8 / 100) ≤ draw023.val ∧
    draw023.val < toDouble (8 / 100) + toDouble (15 / 100) ∧
    toDouble (toDouble (8 / 100) + toDouble (15 / 100)) = draw023.val ∧
    spawnType levelSettings[6] draw023 zeroDraw = some Kind.circle ∧
    Reachable (idle 35 Kind.circle 6 true 35) ∧
    (spawnShape (idle 35 Kind.circle 6 true 35) draw023 zeroDraw zeroDraw 7 800).map
      (fun s => s.shapes) = some [⟨7, Kind.circle, 0, -60⟩] := by
  have hv : draw023.val = 517913957147607 / 2 ^ 51 := rfl
  refine ⟨rfl, rfl, hv, ?_, ?_, ?_, ?_, ?_, spawnType_row7, reach_seventh,
    spawn_idle_shapes levelSettings[6] rfl spawnType_row7⟩
  · show (8 / 100 : ℚ) ≤ draw023.val
    rw [hv]
    norm_num
  · show draw023.val < (8 / 100 : ℚ) + 15 / 100
    rw [hv]
    norm_num
  · rw [toDouble_008, hv]
    norm_num
  · rw [toDouble_008, toDouble_015, hv]
    norm_num
  · rw [toDouble_sum_seventh, hv]

/-- C12, as the code has it: the kind of a spawned shape follows cumulative
thresholds computed in doubles. For every level row with `goldenChance >= 0` and
`bombChance >= 0`, with `g` the double of `goldenChance` and `s` the sum
`goldenChance + bombChance` as the code computes it in doubles, and for every
draw `r` in `[0, 1)`, the kind is golden exactly when `r < g`, bomb exactly when
`g <= r < s`, and one of circle, square, triangle exactly when `r >= s`; this
kind is the `type` of the shape that `spawnShape` appends. In the first row,
where both chances are 0.05, the draws 0.04, 0.07 and 0.5 give golden, bomb and
a plain kind. -/
theorem spawn_classification :
    (∀ (lvl : LevelConfig) (rand pick : Draw),
      0 ≤ lvl.goldenChance → 0 ≤ lvl.bombChance →
      ∃ k, spawnType lvl rand pick = some k ∧
        (k = Kind.golden ↔ rand.val < toDouble lvl.goldenChance) ∧
        (k = Kind.bomb ↔
          toDouble lvl.goldenChance ≤ rand.val ∧
            rand.val < toDouble (toDouble lvl.goldenChance + toDouble lvl.bombChance)) ∧
        (k ∈ shapesList ↔
          toDouble (toDouble lvl.goldenChance + toDouble lvl.bombChance) ≤ rand.val)) ∧
    (∀ (s : GameState) (lvl : LevelConfig) (rand pick pos : Draw) (now innerWidth : Int),
      levelSettings[s.currentLevel]? = some lvl →
      ∃ k s', spawnType lvl rand pick = some k ∧
        spawnShape s rand pick pos now innerWidth = some s' ∧
        s'.shapes.getLast? = some ⟨now, k, toDouble (pos.val * (innerWidth - 60)), -60⟩) ∧
    ((levelSettings[0]).goldenChance = 5 / 100 ∧ (levelSettings[0]).bombChance = 5 / 100 ∧
      draw004.val = toDouble (4 / 100) ∧ draw007.val = toDouble (7 / 100) ∧
      halfDraw.val = 1 / 2 ∧
      ∀ pick : Draw,
        spawnType levelSettings[0] draw004 pick = some Kind.golden ∧
        spawnType levelSettings[0] draw007 pick = some Kind.bomb ∧
        ∃ k, k ∈ shapesList ∧ spawnType levelSettings[0] halfDraw pick = some k) := by
  refine ⟨?_, ?_, rfl, rfl, toDouble_004.symm, toDouble_007.symm, rfl, ?_⟩
  · intro lvl rand pick hg hb
    obtain ⟨p, hp, hpm⟩ := randomPlain_total pick
    have hmono := le_toDouble_add hg hb
    have hpg : p ≠ Kind.golden := by
      intro h
      rw [h] at hpm
      simp [shapesList] at hpm
    have hpb : p ≠ Kind.bomb := by
      intro h
      rw [h] at hpm
      simp [shapesList] at hpm
    unfold spawnType
    by_cases h1 : rand.val < toDouble lvl.goldenChance
    · refine ⟨Kind.golden, by rw [if_pos h1], ?_, ?_, ?_⟩
      · simp [h1]
      · constructor
        · intro h; cases h
        · intro h; exact absurd h1 (not_lt.mpr h.1)
      · constructor
        · intro h; simp [shapesList] at h
        · intro h; linarith
    · by_cases h2 : rand.val <
          toDouble (toDouble lvl.goldenChance + toDouble lvl.bombChance)
      · refine ⟨Kind.bomb, by rw [if_neg h1, if_pos h2], ?_, ?_, ?_⟩
        · constructor
          · intro h; cases h
          · intro h; exact absurd h h1
        · simp [not_lt.mp h1, h2]
        · constructor
          · intro h; simp [shapesList] at h
          · intro h; linarith
      · refine ⟨p, by rw [if_neg h1, if_neg h2]; exact hp, ?_, ?_, ?_⟩
        · constructor
          · intro h; exact absurd h hpg
          · intro h; exact absurd h h1
        · constructor
          · intro h; exact absurd h hpb
          · intro h; exact absurd h.2 h2
        · constructor
          · intro _; exact not_lt.mp h2
          · intro _; exact hpm
  · intro s lvl rand pick pos now innerWidth hl
    obtain ⟨k, hk, hs⟩ := spawn_eq rand pick pos now innerWidth hl
    refine ⟨k, _, hk, hs, ?_⟩
    show (sliceLast 30 (s.shapes ++ [_])).getLast? = _
    rw [sliceLast_concat, List.getLast?_concat]
  · intro pick
    obtain ⟨p, hp, hpm⟩ := randomPlain_total pick
    have hg : toDouble (levelSettings[0]).goldenChance = 3602879701896397 / 2 ^ 56 :=
      toDouble_005
    have hs : toDouble (toDouble (levelSettings[0]).goldenChance +
        toDouble (levelSettings[0]).bombChance) = 3602879701896397 / 2 ^ 55 :=
      toDouble_sum_first
    have h4 : draw004.val = 5764607523034235 / 2 ^ 57 := rfl
    have h7 : draw007.val = 1261007895663739 / 2 ^ 54 := rfl
    refine ⟨?_, ?_, p, hpm, ?_⟩
    · unfold spawnType
      rw [hg, h4, if_pos (by norm_num)]
    · unfold spawnType
      rw [hs, hg, h7, if_neg (by norm_num), if_pos (by norm_num)]
    · unfold spawnType
      rw [hs, hg, halfDraw_val, if_neg (by norm_num), if_neg (by norm_num)]
      exact hp

/-- Witness of `spawn_classification`: the draw 0.07 in the first row, whose
chances are not negative, gives a bomb. -/
theorem spawn_classification_witness :
    0 ≤ (levelSettings[0]).goldenChance ∧ 0 ≤ (levelSettings[0]).bombChance ∧
    ∃ k, spawnType levelSettings[0] draw007 zeroDraw = some k ∧
      (k = Kind.golden ↔ draw007.val < toDouble (levelSettings[0]).goldenChance) ∧
      (k = Kind.bomb ↔
        toDouble (levelSettings[0]).goldenChance ≤ draw007.val ∧
          draw007.val < toDouble (toDouble (levelSettings[0]).goldenChance +
            toDouble (levelSettings[0]).bombChance)) ∧
      (k ∈ shapesList ↔
        toDouble (toDouble (levelSettings[0]).goldenChance +
          toDouble (levelSettings[0]).bombChance) ≤ draw007.val) :=
  ⟨by simp [levelSettings]; norm_num, by simp [levelSettings]; norm_num,
    spawn_classification.1 levelSettings[0] draw007 zeroDraw
      (by simp [levelSettings]; norm_num) (by simp [levelSettings]; norm_num)⟩

/-! ## Particles -/

theorem createParticles_particles (s : GameState) (x : ℚ) (y : Int) (color : String)
    (b : BurstDraws) :
    (createParticles s x y color b).particles =
      s.particles ++ burstAt s.nextParticleId x y color b := rfl

theorem burstAt_length (n : Nat) (x : ℚ) (y : Int) (color : String) (b : BurstDraws) :
    (burstAt n x y color b).length = 5 := by
  simp [burstAt]

theorem burstAt_ids (n : Nat) (x : ℚ) (y : Int) (color : String) (b : BurstDraws) :
    (burstAt n x y color b).map (fun p => p.id) = [n, n + 1, n + 2, n + 3, n + 4] := by
  simp [burstAt, List.range, List.range.loop]

theorem burstAt_mem {n : Nat} {x : ℚ} {y : Int} {color : String} {b : BurstDraws}
    {p : Particle} (hp : p ∈ burstAt n x y color b) :
    p.x = x ∧ p.y = y ∧ p.color = color ∧ p.life = 10 ∧ n ≤ p.id ∧ p.id < n + 5 := by
  simp only [burstAt, List.mem_map, List.mem_range] at hp
  obtain ⟨i, hi, rfl⟩ := hp
  exact ⟨rfl, rfl, rfl, rfl, Nat.le_add_right n i, by show n + i < n + 5; omega⟩

theorem burstAt_pairwise (n : Nat) (x : ℚ) (y : Int) (color : String) (b : BurstDraws) :
    (burstAt n x y color b).Pairwise (fun p q => p.id ≠ q.id) := by
  have h : ((burstAt n x y color b).map (fun p => p.id)).Pairwise (fun a c => a ≠ c) := by
    rw [burstAt_ids]
    simp
  exact List.pairwise_map.mp h

/-- Two live particles with the same id are the same particle. -/
theorem eq_of_id_eq {l : List Particle} (h : l.Pairwise (fun p q => p.id ≠ q.id))
    {p q : Particle} (hp : p ∈ l) (hq : q ∈ l) (e : p.id = q.id) : p = q := by
  induction l with
  | nil => cases hp
  | cons a l ih =>
    obtain ⟨ha, hl⟩ := List.pairwise_cons.mp h
    rcases List.mem_cons.mp hp with rfl | hp'
    · rcases List.mem_cons.mp hq with rfl | hq'
      · rfl
      · exact absurd e (ha q hq')
    · rcases List.mem_cons.mp hq with rfl | hq'
      · exact absurd e.symm (ha p hp')
      · exact ih hl hp' hq'

/-- What a tick does to the particles and to the counter. -/
theorem tick_particles {s s' : GameState} {innerHeight : Int}
    (h : animateShapes s innerHeight = some s') :
    s'.particles = (s.particles.map fun p => { p with life := p.life - 1 }).filter
        (fun p => p.life > 0) ∧
      s'.nextParticleId = s.nextParticleId := by
  obtain ⟨moved, rfl⟩ := tick_spec h
  exact ⟨rfl, rfl⟩

/-- What a tap does to the particles and to the counter. -/
theorem tap_particles {s s' : GameState} {id : Int} {type : Kind} {left : ℚ} {top : Int}
    {b : BurstDraws} (ht : handleShapeTap s id type left top b = some s') :
    s'.particles = s.particles ++ burstAt s.nextParticleId left top (shapeColors type) b ∧
      s'.nextParticleId = s.nextParticleId + 5 := by
  obtain ⟨lvl, hl⟩ := tap_some_level ht
  obtain ⟨_, _, _, hpid, hpa, _⟩ := tap_spec hl ht
  exact ⟨by rw [hpa, createParticles_particles], hpid⟩

theorem pinv_init : PInv initialState := by
  constructor
  · intro p hp
    cases hp
  · exact List.Pairwise.nil

theorem pinv_tick {s s' : GameState} {innerHeight : Int} (hi : PInv s)
    (h : animateShapes s innerHeight = some s') : PInv s' := by
  obtain ⟨hpa, hpid⟩ := tick_particles h
  obtain ⟨hlt, hpw⟩ := hi
  constructor
  · intro p hp
    rw [hpa] at hp
    obtain ⟨q, hq, rfl⟩ := List.mem_map.mp (List.mem_filter.mp hp).1
    rw [hpid]
    exact hlt q hq
  · rw [hpa]
    apply List.Pairwise.filter
    rw [List.pairwise_map]
    exact hpw

theorem pinv_tap {s s' : GameState} {id : Int} {type : Kind} {left : ℚ} {top : Int}
    {b : BurstDraws} (hi : PInv s) (ht : handleShapeTap s id type left top b = some s') :
    PInv s' := by
  obtain ⟨hpa, hpid⟩ := tap_particles ht
  obtain ⟨hlt, hpw⟩ := hi
  constructor
  · intro p hp
    rw [hpa] at hp
    rw [hpid]
    rcases List.mem_append.mp hp with hp | hp
    · exact Nat.lt_add_right 5 (hlt p hp)
    · exact (burstAt_mem hp).2.2.2.2.2
  · rw [hpa, List.pairwise_append]
    refine ⟨hpw, burstAt_pairwise _ _ _ _ _, ?_⟩
    intro p hp q hq
    have h1 := hlt p hp
    have h2 := (burstAt_mem hq).2.2.2.2.1
    omega

theorem pinv_step {s s' : GameState} (hi : PInv s) (hs : Step s s') : PInv s' := by
  cases hs with
  | spawn rand pick pos now innerWidth h =>
    obtain ⟨k, rfl⟩ := spawn_spec h
    exact hi
  | rotate r h =>
    obtain ⟨k, _, rfl⟩ := rotate_spec h
    exact hi
  | tick innerHeight h => exact pinv_tick hi h
  | tap sh b _ h => exact pinv_tap hi h
  | banner => exact hi
  | sound => exact hi

theorem pinv_reachable {s : GameState} (hr : Reachable s) : PInv s := by
  induction hr with
  | init => exact pinv_init
  | step _ hs ih => exact pinv_step ih hs

/-- C18: every tap appends a burst of exactly five particles. On a valid level
index `handleShapeTap` with arguments `(id, type, left, top)` returns a state whose
particle list is the old list, unchanged and in order, followed by five new
particles, each with `x = left`, `y = top`, `life = 10` and
`color = shapeColors type`; their ids are the five consecutive values of the
counter `nextParticleId`, hence pairwise distinct, and the counter moves past
them. In a reachable state these ids differ from the id of every particle
already in the list. -/
theorem tap_burst :
    (∀ (s : GameState) (id : Int) (type : Kind) (left : ℚ) (top : Int) (b : BurstDraws),
      s.currentLevel < levelSettings.length →
      ∃ s' new, handleShapeTap s id type left top b = some s' ∧
        s'.particles = s.particles ++ new ∧ new.length = 5 ∧
        (∀ p ∈ new, p.x = left ∧ p.y = top ∧ p.life = 10 ∧ p.color = shapeColors type) ∧
        new.map (fun p => p.id) =
          [s.nextParticleId, s.nextParticleId + 1, s.nextParticleId + 2,
            s.nextParticleId + 3, s.nextParticleId + 4] ∧
        new.Pairwise (fun p q => p.id ≠ q.id) ∧
        s'.nextParticleId = s.nextParticleId + 5) ∧
    (∀ (s : GameState) (id : Int) (type : Kind) (left : ℚ) (top : Int) (b : BurstDraws),
      Reachable s →
      ∃ s' new, handleShapeTap s id type left top b = some s' ∧
        s'.particles = s.particles ++ new ∧ new.length = 5 ∧
        (∀ p ∈ new, ∀ q ∈ s.particles, p.id ≠ q.id) ∧
        s'.particles.Pairwise (fun p q => p.id ≠ q.id)) := by
  constructor
  · intro s id type left top b hlt
    obtain ⟨s', ht⟩ := tap_total s id type left top b hlt
    obtain ⟨hpa, hpid⟩ := tap_particles ht
    refine ⟨s', _, ht, hpa, burstAt_length _ _ _ _ _, ?_, burstAt_ids _ _ _ _ _,
      burstAt_pairwise _ _ _ _ _, hpid⟩
    intro p hp
    obtain ⟨hx, hy, hc, hlife, _⟩ := burstAt_mem hp
    exact ⟨hx, hy, hlife, hc⟩
  · intro s id type left top b hr
    obtain ⟨lvl, hl, _⟩ := inv_reachable hr
    obtain ⟨s', ht⟩ := tap_total s id type left top b (level_lookup_lt hl)
    obtain ⟨hpa, _⟩ := tap_particles ht
    have hi := pinv_reachable hr
    refine ⟨s', _, ht, hpa, burstAt_length _ _ _ _ _, ?_, (pinv_tap hi ht).2⟩
    intro p hp q hq
    have h1 := hi.1 q hq
    have h2 := (burstAt_mem hp).2.2.2.2.1
    omega

/-- Witness of `tap_burst`: the circle of the reachable state `circleAtStart` is
tapped. -/
theorem tap_burst_witness :
    circleAtStart.currentLevel < levelSettings.length ∧
    (∃ s' new, handleShapeTap circleAtStart 1 Kind.circle 0 (-60) flatBurst = some s' ∧
      s'.particles = circleAtStart.particles ++ new ∧ new.length = 5 ∧
      (∀ p ∈ new, p.x = 0 ∧ p.y = -60 ∧ p.life = 10 ∧ p.color = shapeColors Kind.circle) ∧
      new.map (fun p => p.id) =
        [circleAtStart.nextParticleId, circleAtStart.nextParticleId + 1,
          circleAtStart.nextParticleId + 2, circleAtStart.nextParticleId + 3,
          circleAtStart.nextParticleId + 4] ∧
      new.Pairwise (fun p q => p.id ≠ q.id) ∧
      s'.nextParticleId = circleAtStart.nextParticleId + 5) ∧
    Reachable circleAtStart ∧
    (∃ s' new, handleShapeTap circleAtStart 1 Kind.circle 0 (-60) flatBurst = some s' ∧
      s'.particles = circleAtStart.particles ++ new ∧ new.length = 5 ∧
      (∀ p ∈ new, ∀ q ∈ circleAtStart.particles, p.id ≠ q.id) ∧
      s'.particles.Pairwise (fun p q => p.id ≠ q.id)) :=
  ⟨by decide, tap_burst.1 circleAtStart 1 Kind.circle 0 (-60) flatBurst (by decide),
    reach_circleAtStart,
    tap_burst.2 circleAtStart 1 Kind.circle 0 (-60) flatBurst reach_circleAtStart⟩

/-! ## The score stays below the target -/

/-- C20: in every reachable state the score is below the `targetScore` of the
current level. The reasons hold as well: a tap raises a non-negative score by
at most 5, consecutive targets of `levelSettings` are at least 5 apart, and in
a reachable state a tap on a bomb or on a plain shape that is not the target
returns a state on the same level with the same banner flag. -/
theorem score_below_target :
    (∀ s : GameState, Reachable s →
      ∃ lvl, levelSettings[s.currentLevel]? = some lvl ∧ s.score < lvl.targetScore) ∧
    (∀ (s : GameState) (type : Kind), 0 ≤ s.score → newScore s type ≤ s.score + 5) ∧
    (∀ (i : Nat) (lvl lvl' : LevelConfig), levelSettings[i]? = some lvl →
      levelSettings[i + 1]? = some lvl' → lvl.targetScore + 5 ≤ lvl'.targetScore) ∧
    (∀ (s : GameState) (id : Int) (type : Kind) (left : ℚ) (top : Int) (b : BurstDraws),
      Reachable s → type = Kind.bomb ∨ (type ∈ shapesList ∧ type ≠ s.targetShape) →
      ∃ s', handleShapeTap s id type left top b = some s' ∧
        s'.currentLevel = s.currentLevel ∧ s'.levelUp = s.levelUp) := by
  refine ⟨?_, newScore_le, fun i lvl lvl' h h' => target_gap h h', ?_⟩
  · intro s hr
    obtain ⟨lvl, hl, _, hlt, _⟩ := inv_reachable hr
    exact ⟨lvl, hl, hlt⟩
  · intro s id type left top b hr hk
    have hi := inv_reachable hr
    obtain ⟨_, _, h0, _, hts⟩ := inv_reachable hr
    have hle : newScore s type ≤ s.score := by
      rcases hk with rfl | ⟨hp, hne⟩
      · rw [newScore_bomb s hts]
        omega
      · rw [newScore_wrong s type hp hne]
        omega
    obtain ⟨s', ht, _, hlv, hup⟩ := tap_penalty_of_inv hi id type left top b hle
    exact ⟨s', ht, hlv, hup⟩

/-- Witness of `score_below_target` at the reachable state `circleAtLast`, on the
last level with score 59, where a bomb is tapped. -/
theorem score_below_target_witness :
    Reachable circleAtLast ∧
    (∃ lvl, levelSettings[circleAtLast.currentLevel]? = some lvl ∧
      circleAtLast.score < lvl.targetScore) ∧
    (∃ s', handleShapeTap circleAtLast 9 Kind.bomb 0 0 flatBurst = some s' ∧
      s'.currentLevel = circleAtLast.currentLevel ∧ s'.levelUp = circleAtLast.levelUp) :=
  ⟨reach_circleAtLast, score_below_target.1 circleAtLast reach_circleAtLast,
    score_below_target.2.2.2 circleAtLast 9 Kind.bomb 0 0 flatBurst reach_circleAtLast
      (Or.inl rfl)⟩

/-! ## Decay of a particle -/

theorem quiet_step {s s' : GameState} (h : Quiet s s') : Step s s' := by
  cases h with
  | spawn rand pick pos now innerWidth h => exact Step.spawn rand pick pos now innerWidth h
  | rotate r h => exact Step.rotate r h
  | tap sh b hm h => exact Step.tap sh b hm h
  | banner => exact Step.banner _
  | sound => exact Step.sound _

/-- What a run other than a tick does to the particles: nothing, or a burst is
appended at the counter. -/
theorem quiet_particles {s s' : GameState} (h : Quiet s s') :
    s.nextParticleId ≤ s'.nextParticleId ∧
    ∃ new : List Particle, s'.particles = s.particles ++ new ∧
      ∀ q ∈ new, s.nextParticleId ≤ q.id := by
  cases h with
  | spawn rand pick pos now innerWidth h =>
    obtain ⟨k, rfl⟩ := spawn_spec h
    exact ⟨le_refl _, [], by simp, by simp⟩
  | rotate r h =>
    obtain ⟨k, _, rfl⟩ := rotate_spec h
    exact ⟨le_refl _, [], by simp, by simp⟩
  | tap sh b hm h =>
    obtain ⟨hpa, hpid⟩ := tap_particles h
    refine ⟨by omega, _, hpa, ?_⟩
    intro q hq
    exact (burstAt_mem hq).2.2.2.2.1
  | banner => exact ⟨le_refl _, [], by simp [clearLevelUp], by simp⟩
  | sound => exact ⟨le_refl _, [], by simp [enableSound], by simp⟩

/-- The fate of a particle `p` of life `n` along a sequence of runs with `k`
ticks. -/
theorem decay_along {s : GameState} {p : Particle} {n : Nat} (hi : PInv s)
    (hp : p ∈ s.particles) (hn : p.life = n) (h1 : 1 ≤ n) {k : Nat} {s' : GameState}
    (ht : Ticks k s s') :
    PInv s' ∧ p.id < s'.nextParticleId ∧
    (k < n → ({ p with life := (n : Int) - k } : Particle) ∈ s'.particles) ∧
    (n ≤ k → ∀ q ∈ s'.particles, q.id ≠ p.id) := by
  induction ht with
  | refl =>
    refine ⟨hi, hi.1 p hp, ?_, ?_⟩
    · intro _
      have : ({ p with life := (n : Int) - (0 : Nat) } : Particle) = p := by
        cases p
        simp only at hn
        simp [hn]
      rw [this]
      exact hp
    · intro h
      omega
  | @tick k s0 s1 s2 innerHeight _ h ih =>
    obtain ⟨hi1, hid, hin, hout⟩ := ih hi hp
    obtain ⟨hpa, hpid⟩ := tick_particles h
    refine ⟨pinv_tick hi1 h, by rw [hpid]; exact hid, ?_, ?_⟩
    · intro hk
      rw [hpa]
      apply List.mem_filter.mpr
      constructor
      · apply List.mem_map.mpr
        refine ⟨_, hin (by omega), ?_⟩
        show ({ p with life := (n : Int) - k - 1 } : Particle) = _
        congr 1
        push_cast
        ring
      · simp only [gt_iff_lt, decide_eq_true_eq]
        push_cast
        omega
    · intro hk q hq
      rw [hpa] at hq
      obtain ⟨hq1, hq2⟩ := List.mem_filter.mp hq
      obtain ⟨q0, hq0, rfl⟩ := List.mem_map.mp hq1
      simp only [gt_iff_lt, decide_eq_true_eq] at hq2
      intro he
      by_cases hkn : k < n
      · have heq := eq_of_id_eq hi1.2 hq0 (hin hkn) he
        rw [heq] at hq2
        simp only at hq2
        omega
      · exact hout (not_lt.mp hkn) q0 hq0 he
  | @quiet k s0 s1 s2 _ h ih =>
    obtain ⟨hi1, hid, hin, hout⟩ := ih hi hp
    obtain ⟨hmono, new, hpa, hnew⟩ := quiet_particles h
    refine ⟨pinv_step hi1 (quiet_step h), lt_of_lt_of_le hid hmono, ?_, ?_⟩
    · intro hk
      rw [hpa]
      exact List.mem_append_left _ (hin hk)
    · intro hk q hq
      rw [hpa] at hq
      rcases List.mem_append.mp hq with hq | hq
      · exact hout hk q hq
      · have := hnew q hq
        omega

theorem tap_circleAtStart :
    handleShapeTap circleAtStart 1 Kind.circle 0 (-60) flatBurst = some afterFirstTap := by
  simp [handleShapeTap, newScore, circleAtStart, levelSettings, createParticles, afterFirstTap,
    burstAt]

theorem reach_afterFirstTap : Reachable afterFirstTap :=
  Reachable.step reach_circleAtStart
    (Step.tap (⟨1, Kind.circle, 0, -60⟩ : Shape) flatBurst (by simp [circleAtStart])
      tap_circleAtStart)

theorem firstParticle_mem : firstParticle ∈ afterFirstTap.particles := by
  have h20 : toDouble 20 = 20 := by simpa using toDouble_natCast 20 (by norm_num)
  have h2 : toDouble 2 = 2 := by simpa using toDouble_natCast 2 (by norm_num)
  simp [afterFirstTap, burstAt, firstParticle, flatBurst, zeroDraw, List.range,
    List.range.loop]
  norm_num [toDouble_zero, h20, h2]

theorem tick_afterFirstTap : animateShapes afterFirstTap 700 = some afterFirstTick :=
  tick_idle afterFirstTap 700 rfl

/-- C13: a particle with life `n >= 1` in the list of a reachable state is, after
any sequence of handler runs with `k` ticks, still in the list with life
`n - k` as long as `k < n`, and from `k = n` on no particle of the list carries
its id. Every particle pushed by a tap has life 10, so it is in the list with
life `10 - k` after `k < 10` ticks and gone after 10 ticks and ever after. -/
theorem particle_decay :
    (∀ (s s' : GameState) (p : Particle) (n k : Nat),
      Reachable s → p ∈ s.particles → p.life = n → 1 ≤ n → Ticks k s s' →
      (k < n → ({ p with life := (n : Int) - k } : Particle) ∈ s'.particles) ∧
      (n ≤ k → ∀ q ∈ s'.particles, q.id ≠ p.id)) ∧
    (∀ (s : GameState) (id : Int) (type : Kind) (left : ℚ) (top : Int) (b : BurstDraws),
      Reachable s →
      ∃ s1, handleShapeTap s id type left top b = some s1 ∧
        ∀ p ∈ s1.particles, s.nextParticleId ≤ p.id →
          p.life = 10 ∧
          ∀ (k : Nat) (s' : GameState), Ticks k s1 s' →
            (k < 10 → ({ p with life := 10 - (k : Int) } : Particle) ∈ s'.particles) ∧
            (10 ≤ k → ∀ q ∈ s'.particles, q.id ≠ p.id)) := by
  constructor
  · intro s s' p n k hr hp hn h1 ht
    obtain ⟨_, _, hin, hout⟩ := decay_along (pinv_reachable hr) hp hn h1 ht
    exact ⟨hin, hout⟩
  · intro s id type left top b hr
    obtain ⟨lvl, hl, _⟩ := inv_reachable hr
    obtain ⟨s1, ht⟩ := tap_total s id type left top b (level_lookup_lt hl)
    obtain ⟨hpa, _⟩ := tap_particles ht
    have hi := pinv_reachable hr
    refine ⟨s1, ht, ?_⟩
    intro p hp hge
    have hlife : p.life = 10 := by
      rw [hpa] at hp
      rcases List.mem_append.mp hp with hold | hnew
      · have := hi.1 p hold
        omega
      · exact (burstAt_mem hnew).2.2.2.1
    refine ⟨hlife, ?_⟩
    intro k s' htk
    have hlife' : p.life = ((10 : Nat) : Int) := by rw [hlife]; rfl
    obtain ⟨_, _, hin, hout⟩ := decay_along (pinv_tap hi ht) hp hlife' (by decide) htk
    exact ⟨hin, hout⟩

/-- Witness of `particle_decay`: the first particle of the burst in the
reachable state `afterFirstTap` has life 10 and after one tick life 9. -/
theorem particle_decay_witness :
    Reachable afterFirstTap ∧ firstParticle ∈ afterFirstTap.particles ∧
    firstParticle.life = (10 : Nat) ∧ 1 ≤ 10 ∧ Ticks 1 afterFirstTap afterFirstTick ∧
    (1 < 10 → ({ firstParticle with life := ((10 : Nat) : Int) - (1 : Nat) } : Particle) ∈
      afterFirstTick.particles) ∧
    (10 ≤ 1 → ∀ q ∈ afterFirstTick.particles, q.id ≠ firstParticle.id) :=
  ⟨reach_afterFirstTap, firstParticle_mem, rfl, by decide,
    Ticks.tick 700 (Ticks.refl afterFirstTap) tick_afterFirstTap,
    particle_decay.1 afterFirstTap afterFirstTick firstParticle 10 1 reach_afterFirstTap
      firstParticle_mem rfl (by decide)
      (Ticks.tick 700 (Ticks.refl afterFirstTap) tick_afterFirstTap)⟩

/-! ## Ids of shapes -/

/-- The state after a spawn, given the row of the level and the kind drawn. -/
theorem spawn_at (s : GameState) (lvl : LevelConfig) {rand pick : Draw} {k : Kind}
    (pos : Draw) (now innerWidth : Int) (hl : levelSettings[s.currentLevel]? = some lvl)
    (hk : spawnType lvl rand pick = some k) :
    spawnShape s rand pick pos now innerWidth = some { s with
      shapes := sliceLast 30
        (s.shapes ++ [⟨now, k, toDouble (pos.val * (innerWidth - 60)), -60⟩]) } := by
  unfold spawnShape
  rw [hl]
  simp only []
  rw [hk]

theorem reach_twins : Reachable twins := by
  have h370 : toDouble 370 = 370 := by simpa using toDouble_natCast 370 (by norm_num)
  have h1 : spawnShape initialState zeroDraw zeroDraw zeroDraw 1 800 =
      some { initialState with shapes := [⟨1, Kind.golden, 0, -60⟩] } := by
    rw [spawn_at initialState levelSettings[0] zeroDraw 1 800 rfl
      (spawnType_zeroDraw zeroDraw (List.getElem_mem _))]
    simp [sliceLast, initialState, zeroDraw_val, toDouble_zero]
  have h2 : spawnShape { initialState with shapes := [⟨1, Kind.golden, 0, -60⟩] }
      halfDraw zeroDraw halfDraw 1 800 = some twins := by
    rw [spawn_at { initialState with shapes := [⟨1, Kind.golden, 0, -60⟩] }
      levelSettings[0] halfDraw 1 800 rfl (spawnType_halfDraw (List.getElem_mem _))]
    simp [sliceLast, initialState, halfDraw_val, twins]
    norm_num [h370]
  exact Reachable.step
    (Reachable.step Reachable.init (Step.spawn zeroDraw zeroDraw zeroDraw 1 800 h1))
    (Step.spawn halfDraw zeroDraw halfDraw 1 800 h2)

/-- C14 at the failing input: two spawns that both read `Date.now() = 1` lead
to the reachable state `twins`, whose two shapes carry the same id 1; a tap on
the golden one removes both shapes. -/
theorem duplicate_ids :
    Reachable twins ∧
    twins.shapes = [⟨1, Kind.golden, 0, -60⟩, ⟨1, Kind.circle, 370, -60⟩] ∧
    twins.shapes.map (fun e => e.id) = [1, 1] ∧
    (handleShapeTap twins 1 Kind.golden 0 (-60) flatBurst).map (fun s => s.shapes)
      = some [] :=
  ⟨reach_twins, rfl, rfl, by simp [handleShapeTap, newScore, twins, levelSettings,
    createParticles]⟩

/-! ## Repeated taps -/

/-- After a tap no shape of the list carries the tapped id. -/
theorem tap_removes_id {s s' : GameState} {id : Int} {type : Kind} {left : ℚ} {top : Int}
    {b : BurstDraws} (ht : handleShapeTap s id type left top b = some s') :
    ∀ e ∈ s'.shapes, e.id ≠ id := by
  obtain ⟨lvl, hl⟩ := tap_some_level ht
  obtain ⟨hsh, _⟩ := tap_spec hl ht
  intro e he
  rw [hsh] at he
  simpa using (List.mem_filter.mp he).2

/-- A tap aimed at an id that no shape of the list carries changes nothing. -/
theorem tapOn_absent (s : GameState) (e : Shape) (b : BurstDraws)
    (h : ∀ sh ∈ s.shapes, sh.id ≠ e.id) : tapOn s e b = some s := by
  unfold tapOn
  rw [if_neg]
  intro he
  exact h e he rfl

/-- C5: tap resolution is idempotent per entity id. On a valid level index a tap
on a shape followed by a second tap on the same shape gives the state of the
first tap alone: same score, level index, shapes and particles. After a tap on
a shape on screen no shape carries its id any more, so every further tap with
that id does nothing; and a tap with an id that no shape of the list carries
leaves the whole state unchanged: no scoring and no particle burst. -/
theorem tap_idempotent :
    (∀ (s : GameState) (sh : Shape) (b b' : BurstDraws),
      s.currentLevel < levelSettings.length →
      ∃ s1, tapOn s sh b = some s1 ∧ tapOn s1 sh b' = some s1) ∧
    (∀ (s : GameState) (sh : Shape) (b : BurstDraws),
      s.currentLevel < levelSettings.length → sh ∈ s.shapes →
      ∃ s1, tapOn s sh b = some s1 ∧
        handleShapeTap s sh.id sh.type sh.left sh.top b = some s1 ∧
        (∀ e ∈ s1.shapes, e.id ≠ sh.id) ∧
        ∀ (e : Shape) (b' : BurstDraws), e.id = sh.id → tapOn s1 e b' = some s1) ∧
    (∀ (s : GameState) (e : Shape) (b : BurstDraws),
      (∀ sh ∈ s.shapes, sh.id ≠ e.id) → tapOn s e b = some s) := by
  have hlive : ∀ (s : GameState) (sh : Shape) (b : BurstDraws),
      s.currentLevel < levelSettings.length → sh ∈ s.shapes →
      ∃ s1, tapOn s sh b = some s1 ∧
        handleShapeTap s sh.id sh.type sh.left sh.top b = some s1 ∧
        (∀ e ∈ s1.shapes, e.id ≠ sh.id) ∧
        ∀ (e : Shape) (b' : BurstDraws), e.id = sh.id → tapOn s1 e b' = some s1 := by
    intro s sh b hlt hm
    obtain ⟨s1, ht⟩ := tap_total s sh.id sh.type sh.left sh.top b hlt
    have hgone := tap_removes_id ht
    refine ⟨s1, ?_, ht, hgone, ?_⟩
    · unfold tapOn
      rw [if_pos hm]
      exact ht
    · intro e b' he
      apply tapOn_absent
      rw [he]
      exact hgone
  refine ⟨?_, hlive, tapOn_absent⟩
  intro s sh b b' hlt
  by_cases hm : sh ∈ s.shapes
  · obtain ⟨s1, h1, _, _, h2⟩ := hlive s sh b hlt hm
    exact ⟨s1, h1, h2 sh b' rfl⟩
  · have h1 : tapOn s sh b = some s := by
      unfold tapOn
      rw [if_neg hm]
    have h2 : tapOn s sh b' = some s := by
      unfold tapOn
      rw [if_neg hm]
    exact ⟨s, h1, h2⟩

/-- Witness of `tap_idempotent`: the circle of the reachable state
`circleAtStart` is tapped twice; both times the result is `afterFirstTap`, with
score 1 and five particles. -/
theorem tap_idempotent_witness :
    Reachable circleAtStart ∧
    circleAtStart.currentLevel < levelSettings.length ∧
    (⟨1, Kind.circle, 0, -60⟩ : Shape) ∈ circleAtStart.shapes ∧
    tapOn circleAtStart ⟨1, Kind.circle, 0, -60⟩ flatBurst = some afterFirstTap ∧
    afterFirstTap.score = 1 ∧ afterFirstTap.particles.length = 5 ∧
    (∃ s1, tapOn circleAtStart ⟨1, Kind.circle, 0, -60⟩ flatBurst = some s1 ∧
      tapOn s1 ⟨1, Kind.circle, 0, -60⟩ flatBurst = some s1) ∧
    (∃ s1, tapOn circleAtStart ⟨1, Kind.circle, 0, -60⟩ flatBurst = some s1 ∧
      handleShapeTap circleAtStart 1 Kind.circle 0 (-60) flatBurst = some s1 ∧
      (∀ e ∈ s1.shapes, e.id ≠ 1) ∧
      ∀ (e : Shape) (b' : BurstDraws), e.id = 1 → tapOn s1 e b' = some s1) :=
  ⟨reach_circleAtStart, by decide, by simp [circleAtStart],
    by
      unfold tapOn
      rw [if_pos (by simp [circleAtStart])]
      exact tap_circleAtStart,
    rfl, by simp [afterFirstTap, burstAt_length],
    tap_idempotent.1 circleAtStart ⟨1, Kind.circle, 0, -60⟩ flatBurst flatBurst (by decide),
    tap_idempotent.2.1 circleAtStart ⟨1, Kind.circle, 0, -60⟩ flatBurst (by decide)
      (by simp [circleAtStart])⟩

end CatchTheShape
